import Mathlib

/-!
Shallow embedding of the candle tensor engine.

The `Tensor` layer is translated from `src/tensor.rs`.  The layout module
(`tensor/layout.rs`) and the error module (`tensor/error.rs`) are declared by
`tensor.rs` but their sources are not part of the repository snapshot, so the
`TensorLayout` operations and the error type are modelled from the
specification (marked `Modelled from the spec:` below).

Conventions of the embedding:
- the `f32` element type is modelled by `ℤ`: every numeric scenario in the
  claims uses small integer values, on which `f32` arithmetic is exact, and
  no operation of the embedded API divides, so the integers are closed under
  every operation used; `f32` rounding behaviour is outside the embedding;
- `Rc<Vec<f32>>` is modelled by a plain `List ℤ`; `Rc::clone` (a pointer
  copy, no element copy) is modelled by passing the same list value through
  unchanged, so "shares the identical buffer" is rendered as equality of the
  `data` fields produced without rebuilding the list;
- `Result<T, TensorError>` is `Except TensorError T`;
- reading `data[pos]` is modelled by `List.getD data pos 0`; the in-bounds
  claims (C5) show the positions actually used are within bounds.
-/

/-- Modelled from the spec: the single structured error condition
`ShapeIncompatible(shape_a, shape_b)` of section 6; `tensor.rs` constructs it
as `TensorError::IncompatibleShapes(Vec<usize>, Vec<usize>)`. -/
inductive TensorError where
  | IncompatibleShapes : List Nat → List Nat → TensorError
deriving Repr, DecidableEq

/-- Modelled from the spec: the canonical row-major (C-order) strides of a
shape, `strides[i] = product(shape[i+1..])` (section 3, Layout invariant). -/
def rowMajorStrides : List Nat → List Nat
  | [] => []
  | _ :: rest => rest.prod :: rowMajorStrides rest

/-- Modelled from the spec: a layout is a shape together with strides of the
same length (section 3). -/
structure TensorLayout where
  shape : List Nat
  strides : List Nat
deriving Repr, DecidableEq

namespace TensorLayout

/-- Modelled from the spec: `Layout::from(shape)` builds the canonical
row-major layout for `shape` (section 4.1). -/
def fromShape (shape : List Nat) : TensorLayout :=
  ⟨shape, rowMajorStrides shape⟩

/-- Modelled from the spec: the rank-0 layout used by `Tensor::scalar`. -/
def scalar : TensorLayout :=
  fromShape []

/-- Modelled from the spec: `elems()` is the product of the dimensions
(empty shape ⇒ 1, a zero dimension ⇒ 0). -/
def elems (l : TensorLayout) : Nat :=
  l.shape.prod

/-- Modelled from the spec: `index_to_position(index)` returns the linear
buffer offset `Σ index[i] * strides[i]` (section 4.1). -/
def index_to_position (l : TensorLayout) (index : List Nat) : Nat :=
  (List.zipWith (fun i s => i * s) index l.strides).sum

/-- All per-dimension indices of a shape in lexicographic (row-major) order,
the last dimension varying fastest. -/
def indexSpace : List Nat → List (List Nat)
  | [] => [[]]
  | s :: rest => (List.range s).flatMap (fun i => (indexSpace rest).map (fun idx => i :: idx))

/-- Modelled from the spec: `iter_index()` produces every valid
per-dimension index in lexicographic (row-major) order (section 4.1). -/
def iter_index (l : TensorLayout) : List (List Nat) :=
  indexSpace l.shape

/-- Modelled from the spec: `iter_position()` is `index_to_position` applied
to each index of `iter_index()` in turn (section 4.1). -/
def iter_position (l : TensorLayout) : List Nat :=
  l.iter_index.map l.index_to_position

/-- Pad a list on the left with copies of `v` up to length `n`. -/
def padLeft (xs : List Nat) (n : Nat) (v : Nat) : List Nat :=
  List.replicate (n - xs.length) v ++ xs

/-- Modelled from the spec: one aligned dimension pair is legal iff
`a == b`, or `a == 1`, or `b == 1` (section 4.1, broadcast). -/
def broadcastPairOk (a b : Nat) : Bool :=
  a == b || a == 1 || b == 1

/-- Modelled from the spec: NumPy-style broadcast compatibility of two
shapes: align at the trailing dimension, pad the shorter on the left with
size-1 dimensions, and require every aligned pair to be legal. -/
def broadcastCompat (s t : List Nat) : Bool :=
  let n := max s.length t.length
  (List.zip (padLeft s n 1) (padLeft t n 1)).all (fun p => broadcastPairOk p.1 p.2)

/-- Modelled from the spec: the broadcast size of each aligned pair is
`max(a, b)` (section 4.1). -/
def broadcastShape (s t : List Nat) : List Nat :=
  let n := max s.length t.length
  List.zipWith max (padLeft s n 1) (padLeft t n 1)

/-- Modelled from the spec: a dimension that keeps its size keeps its
stride; a size-1 dimension broadcast up gets stride 0 (section 4.1). -/
def expandStrides (paddedShape paddedStrides bshape : List Nat) : List Nat :=
  List.zipWith (fun (p : Nat × Nat) bdim => if p.1 = bdim then p.2 else 0)
    (paddedShape.zip paddedStrides) bshape

/-- Modelled from the spec: `broadcast(other)` returns the two expanded
layouts over the common broadcast shape, or fails with a
shape-incompatibility error naming both shapes (section 4.1). -/
def broadcast (l other : TensorLayout) : Except TensorError (TensorLayout × TensorLayout) :=
  if broadcastCompat l.shape other.shape then
    let n := max l.shape.length other.shape.length
    let bshape := broadcastShape l.shape other.shape
    let lstrides := expandStrides (padLeft l.shape n 1) (padLeft l.strides n 0) bshape
    let rstrides := expandStrides (padLeft other.shape n 1) (padLeft other.strides n 0) bshape
    .ok (⟨bshape, lstrides⟩, ⟨bshape, rstrides⟩)
  else
    .error (.IncompatibleShapes l.shape other.shape)

/-- Modelled from the spec: `reshape(shape)` fails outright when element
counts differ; otherwise it returns the canonical layout over `shape` when
the current layout is contiguous in the sense that its row-major traversal
visits buffer positions in exactly the order a canonical layout would
(positions `0, 1, ..., elems-1`), and `none` ("no view possible", the caller
must materialize) otherwise (section 4.1). -/
def reshape (l : TensorLayout) (shape : List Nat) : Except TensorError (Option TensorLayout) :=
  if shape.prod ≠ l.elems then
    .error (.IncompatibleShapes l.shape shape)
  else if l.iter_position = List.range l.elems then
    .ok (some (fromShape shape))
  else
    .ok none

/-- Swap the entries at positions `i` and `j` of a list of naturals. -/
def swapAt (xs : List Nat) (i j : Nat) : List Nat :=
  (xs.set i (xs.getD j 0)).set j (xs.getD i 0)

/-- Modelled from the spec: `transpose(dim0, dim1)` swaps the two entries in
both shape and strides, and fails when either index is out of range
(section 4.1). -/
def transpose (l : TensorLayout) (dim0 dim1 : Nat) : Except TensorError TensorLayout :=
  if dim0 < l.shape.length ∧ dim1 < l.shape.length then
    .ok ⟨swapAt l.shape dim0 dim1, swapAt l.strides dim0 dim1⟩
  else
    .error (.IncompatibleShapes l.shape [dim0, dim1])

/-- Modelled from the spec: `permute(order)` reorders shape and strides by a
permutation of `0..rank` and fails when `order` has the wrong length, or a
repeated or out-of-range entry, i.e. when it does not cover every dimension
(section 4.1). -/
def permute (l : TensorLayout) (permutation : List Nat) : Except TensorError TensorLayout :=
  if permutation.length = l.shape.length ∧ ∀ i ∈ List.range l.shape.length, i ∈ permutation then
    .ok ⟨permutation.map (fun i => l.shape.getD i 0), permutation.map (fun i => l.strides.getD i 0)⟩
  else
    .error (.IncompatibleShapes l.shape permutation)

/-- Keep the shape/stride pairs whose dimension size is not 1. -/
def squeezePairs : List (Nat × Nat) → List (Nat × Nat)
  | [] => []
  | p :: rest => if p.1 = 1 then squeezePairs rest else p :: squeezePairs rest

/-- Modelled from the spec: `squeeze()` removes every dimension of size 1
from the shape together with its paired stride (section 4.1). -/
def squeeze (l : TensorLayout) : TensorLayout :=
  let pairs := squeezePairs (l.shape.zip l.strides)
  ⟨pairs.map Prod.fst, pairs.map Prod.snd⟩

/-- Modelled from the spec: `reduce(dims)` fails when a requested dimension
index is out of range or duplicated; otherwise it returns the result layout
and the reducer layout, the reducer having the reduced dimensions' sizes set
to 1 and their strides set to 0 so that `index_to_position` maps every
source index to its accumulator position (sections 4.1 and 4.2).  The result
layout is the canonical layout over the shape with each reduced dimension
kept with size 1: `matmul` in `src/tensor.rs` (lines 259-265) sums the last
axis of `(..., m, n, k)` "to get `(..., m, n, 1)`" and then drops that
trailing unit axis itself, so the result layout cannot drop the reduced
dimensions (section 4.2, step 5 of `matmul`); section 4.1's phrase "with
those dimensions removed" is inconsistent with that caller and is not
followed. -/
def reduceShape (shape dims : List Nat) : List Nat :=
  (List.range shape.length).map (fun i => if i ∈ dims then 1 else shape.getD i 0)

/-- The strides of the reducer layout: canonical strides of `reduceShape`
with the reduced dimensions' strides set to 0. -/
def reduceStrides (shape dims : List Nat) : List Nat :=
  (List.range shape.length).map
    (fun i => if i ∈ dims then 0 else (rowMajorStrides (reduceShape shape dims)).getD i 0)

/-- Modelled from the spec: `reduce(dims)` fails when a requested dimension
index is out of range or duplicated; otherwise returns the result layout
(canonical over `reduceShape`) and the reducer layout (see above). -/
def reduce (l : TensorLayout) (dims : List Nat) :
    Except TensorError (TensorLayout × TensorLayout) :=
  if dims.Nodup ∧ ∀ d ∈ dims, d < l.shape.length then
    .ok (fromShape (reduceShape l.shape dims),
      ⟨reduceShape l.shape dims, reduceStrides l.shape dims⟩)
  else
    .error (.IncompatibleShapes l.shape dims)

end TensorLayout

/-- The left matmul operand's shape after rank-1 promotion: `(k)` becomes
`(1, k)`. -/
def matmulPromoteL (s : List Nat) : List Nat :=
  if s.length = 1 then 1 :: s else s

/-- The right matmul operand's shape after rank-1 promotion: `(k)` becomes
`(k, 1)`. -/
def matmulPromoteR (s : List Nat) : List Nat :=
  if s.length = 1 then s ++ [1] else s

/-- `Tensor` from `src/tensor.rs`: a shared immutable buffer (`Rc<Vec<f32>>`,
modelled by `List ℤ`) together with a layout. -/
structure Tensor where
  data : List ℤ
  layout : TensorLayout
deriving Repr, DecidableEq

namespace Tensor

/-- `Tensor::scalar`: a rank-0 layout wrapping a single-element buffer. -/
def scalar (x : ℤ) : Tensor :=
  ⟨[x], TensorLayout.scalar⟩

/-- `Tensor::shaped`: fails with a shape-incompatibility error when the
element count of `shape` differs from the data length. -/
def shaped (shape : List Nat) (data : List ℤ) : Except TensorError Tensor :=
  let layout := TensorLayout.fromShape shape
  if layout.elems ≠ data.length then
    .error (.IncompatibleShapes shape [data.length])
  else
    .ok ⟨data, layout⟩

/-- `impl From<Vec<f32>> for Tensor`: a rank-1 tensor over the raw data. -/
def fromVec (data : List ℤ) : Tensor :=
  ⟨data, TensorLayout.fromShape [data.length]⟩

/-- `Tensor::rand`: the external sampler is modelled as a function producing
the i-th sample; the tensor takes the first `elems(shape)` samples. -/
def rand (sample : Nat → ℤ) (shape : List Nat) : Tensor :=
  let layout := TensorLayout.fromShape shape
  ⟨(List.range layout.elems).map sample, layout⟩

/-- `impl Index<usize> for &Tensor`: `t[pos]` reads the buffer at the flat
physical position `pos`, without consulting the layout. -/
def posGet (t : Tensor) (pos : Nat) : ℤ :=
  t.data.getD pos 0

/-- `impl Index<&[usize]> for &Tensor`: maps the per-dimension index through
the layout and reads the resulting buffer position. -/
def indexGet (t : Tensor) (index : List Nat) : ℤ :=
  t.posGet (t.layout.index_to_position index)

/-- `into_iter`: the tensor's element values in the layout's row-major
logical order (the value at each position of `iter_position`). -/
def toList (t : Tensor) : List ℤ :=
  t.layout.iter_position.map (fun pos => t.data.getD pos 0)

/-- `Tensor::map`: applies `op` along the tensor's own row-major traversal
and wraps the result in a fresh canonical layout of the same shape. -/
def map (t : Tensor) (op : ℤ → ℤ) : Tensor :=
  ⟨t.toList.map op, TensorLayout.fromShape t.layout.shape⟩

/-- `Tensor::broadcast` (private): broadcasts the two layouts and pairs each
broadcast layout with its original buffer. -/
def broadcast (t other : Tensor) : Except TensorError (Tensor × Tensor) :=
  match t.layout.broadcast other.layout with
  | .error e => .error e
  | .ok (lhsLayout, rhsLayout) => .ok (⟨t.data, lhsLayout⟩, ⟨other.data, rhsLayout⟩)

/-- `Tensor::zip`: broadcasts both operands, then applies `op` to the two
broadcast traversals in lockstep, producing a fresh canonical tensor. -/
def zip (t other : Tensor) (op : ℤ → ℤ → ℤ) : Except TensorError Tensor :=
  match t.broadcast other with
  | .error e => .error e
  | .ok (lhs, rhs) =>
    .ok ⟨List.zipWith op lhs.toList rhs.toList, TensorLayout.fromShape lhs.layout.shape⟩

/-- `impl ops::Add for &Tensor`: `zip` with `+`. -/
def add (t other : Tensor) : Except TensorError Tensor :=
  t.zip other (fun x y => x + y)

/-- `impl ops::Mul for &Tensor`: `zip` with `*`. -/
def mul (t other : Tensor) : Except TensorError Tensor :=
  t.zip other (fun x y => x * y)

/-- `impl ops::Add<&Tensor> for Result<Tensor, TensorError>`:
`self.and_then(|lhs| &lhs + rhs)`. -/
def addRT (lhs : Except TensorError Tensor) (rhs : Tensor) : Except TensorError Tensor :=
  lhs.bind (fun l => l.add rhs)

/-- `impl ops::Add<Result<Tensor, TensorError>> for &Tensor`:
`rhs.and_then(|rhs| self + &rhs)`. -/
def addTR (lhs : Tensor) (rhs : Except TensorError Tensor) : Except TensorError Tensor :=
  rhs.bind (fun r => lhs.add r)

/-- `impl ops::Mul<&Tensor> for Result<Tensor, TensorError>`:
`self.and_then(|lhs| lhs.zip(rhs, |x, y| x * y))`. -/
def mulRT (lhs : Except TensorError Tensor) (rhs : Tensor) : Except TensorError Tensor :=
  lhs.bind (fun l => l.mul rhs)

/-- `impl ops::Mul<Result<Tensor, TensorError>> for &Tensor`:
`rhs.and_then(|rhs| self * &rhs)`. -/
def mulTR (lhs : Tensor) (rhs : Except TensorError Tensor) : Except TensorError Tensor :=
  rhs.bind (fun r => lhs.mul r)

/-- `Tensor::reduce`: computes the result/reducer layout pair, initializes
the accumulator buffer with `dflt` (the Rust parameter is called `default`),
then folds every source element into its destination accumulator position in
the source's row-major index order. -/
def reduce (t : Tensor) (dims : List Nat) (dflt : ℤ) (op : ℤ → ℤ → ℤ) :
    Except TensorError Tensor :=
  match t.layout.reduce dims with
  | .error e => .error e
  | .ok (layout, reducer) =>
    let res := t.layout.iter_index.foldl
      (fun res idx =>
        let srcPos := t.layout.index_to_position idx
        let dstPos := reducer.index_to_position idx
        res.set dstPos (op (res.getD dstPos 0) (t.data.getD srcPos 0)))
      (List.replicate layout.elems dflt)
    .ok ⟨res, layout⟩

/-- `Tensor::sum`: `reduce` with identity 0 and `+`. -/
def sum (t : Tensor) (dims : List Nat) : Except TensorError Tensor :=
  t.reduce dims 0 (fun x y => x + y)

/-- `Tensor::product`: `reduce` with identity 1 and `*`. -/
def product (t : Tensor) (dims : List Nat) : Except TensorError Tensor :=
  t.reduce dims 1 (fun x y => x * y)

/-- `Tensor::squeeze`: delegates to the layout and shares the buffer. -/
def squeeze (t : Tensor) : Tensor :=
  ⟨t.data, t.layout.squeeze⟩

/-- `Tensor::transpose`: delegates to the layout and shares the buffer
(`data: self.data.clone()` is an `Rc` pointer clone). -/
def transpose (t : Tensor) (dim0 dim1 : Nat) : Except TensorError Tensor :=
  match t.layout.transpose dim0 dim1 with
  | .error e => .error e
  | .ok layout => .ok ⟨t.data, layout⟩

/-- `Tensor::permute`: delegates to the layout and shares the buffer. -/
def permute (t : Tensor) (permutation : List Nat) : Except TensorError Tensor :=
  match t.layout.permute permutation with
  | .error e => .error e
  | .ok layout => .ok ⟨t.data, layout⟩

/-- `Tensor::reshape`: a view over the same buffer when the layout allows
it; otherwise clones the raw underlying buffer
(`Self::from(self.data.as_ref().clone())`, a rank-1 tensor over the whole
buffer in physical order) and retries the reshape on that tensor. -/
def reshape (t : Tensor) (shape : List Nat) : Except TensorError Tensor :=
  match h : t.layout.reshape shape with
  | .error e => .error e
  | .ok (some layout) => .ok ⟨t.data, layout⟩
  | .ok none => (fromVec t.data).reshape shape
termination_by (if t.layout = TensorLayout.fromShape [t.data.length] then 0 else 1)
decreasing_by
  simp only [fromVec]
  have hcanon : ∀ s0 : List Nat,
      (TensorLayout.fromShape [t.data.length]).reshape s0 ≠ Except.ok none := by
    intro s0
    unfold TensorLayout.reshape
    by_cases hp : s0.prod ≠ (TensorLayout.fromShape [t.data.length]).elems
    · simp [hp]
    · have hiter : (TensorLayout.fromShape [t.data.length]).iter_position =
          List.range (TensorLayout.fromShape [t.data.length]).elems := by
        have hpos : ∀ i : Nat,
            ({ shape := [t.data.length], strides := rowMajorStrides [t.data.length] } :
              TensorLayout).index_to_position [i] = i := by
          intro i
          simp [TensorLayout.index_to_position, rowMajorStrides]
        simp only [TensorLayout.iter_position, TensorLayout.iter_index,
          TensorLayout.fromShape, TensorLayout.indexSpace, TensorLayout.elems]
        rw [List.map_flatMap]
        simp only [List.map_map]
        simp [hpos]
      simp [hp, hiter]
  have hne : t.layout ≠ TensorLayout.fromShape [t.data.length] := by
    intro heq
    rw [heq] at h
    exact hcanon shape h
  simp [hne]

/-- `Tensor::matmul`: batched matrix multiplication through broadcasting,
transposition and summation, exactly as in `src/tensor.rs`. -/
def matmul (t other : Tensor) : Except TensorError Tensor :=
  let lhsShape0 := t.layout.shape
  let rhsShape0 := other.layout.shape
  if lhsShape0.length = 0 ∨ rhsShape0.length = 0 then
    .error (.IncompatibleShapes lhsShape0 rhsShape0)
  else
    let lhsShape1 := matmulPromoteL lhsShape0
    let rhsShape1 := matmulPromoteR rhsShape0
    if lhsShape1.getD (lhsShape1.length - 1) 0 ≠ rhsShape1.getD (rhsShape1.length - 2) 0 then
      .error (.IncompatibleShapes lhsShape1 rhsShape1)
    else
      let lhsShape2 := lhsShape1.insertIdx (lhsShape1.length - 1) 1
      let rhsShape2 := rhsShape1.insertIdx (rhsShape1.length - 2) 1
      match t.reshape lhsShape2 with
      | .error e => .error e
      | .ok lhs =>
        match other.reshape rhsShape2 with
        | .error e => .error e
        | .ok rhs =>
          match rhs.transpose (rhsShape2.length - 1) (rhsShape2.length - 2) with
          | .error e => .error e
          | .ok rhsT =>
            match lhs.mul rhsT with
            | .error e => .error e
            | .ok prod =>
              match prod.sum [prod.layout.shape.length - 1] with
              | .error e => .error e
              | .ok sumprod =>
                let shape3 := sumprod.layout.shape.dropLast
                let shape4 := if lhsShape0.length = 1 then
                    shape3.eraseIdx (shape3.length - 2) else shape3
                let shape5 := if rhsShape0.length = 1 then
                    shape4.eraseIdx (shape4.length - 1) else shape4
                sumprod.reshape shape5

end Tensor

/-- A full per-dimension index is valid for a shape when it has one entry
per dimension and each entry is strictly below the dimension size. -/
def TensorLayout.ValidIdx (shape index : List Nat) : Prop :=
  List.Forall₂ (fun i s => i < s) index shape

/-- The buffer holds exactly `elems` entries; this holds for every tensor
the public API can build. -/
def Tensor.Sized (t : Tensor) : Prop :=
  t.data.length = t.layout.elems

/-- The safety invariant of the spec (section 3): strides and shape have the
same length, and every buffer position the layout produces via
`index_to_position` for a valid index is inside the buffer. -/
def Tensor.WF (t : Tensor) : Prop :=
  t.layout.strides.length = t.layout.shape.length ∧
  ∀ index, TensorLayout.ValidIdx t.layout.shape index →
    t.layout.index_to_position index < t.data.length

/-- The batch dimensions of a promoted matmul operand shape: everything
before the trailing matrix dimensions. -/
def matmulBatch (s : List Nat) : List Nat :=
  s.take (s.length - 2)

/-- The inner-dimension condition of matmul: the left operand's last
dimension equals the right operand's second-to-last dimension (after rank-1
promotion). -/
def matmulInnerOk (sa sb : List Nat) : Prop :=
  (matmulPromoteL sa).getD ((matmulPromoteL sa).length - 1) 0 =
    (matmulPromoteR sb).getD ((matmulPromoteR sb).length - 2) 0

/-- The batch-compatibility condition of matmul: the promoted operands'
batch dimensions are broadcast-compatible. -/
def matmulBatchOk (sa sb : List Nat) : Prop :=
  TensorLayout.broadcastCompat (matmulBatch (matmulPromoteL sa)) (matmulBatch (matmulPromoteR sb)) = true

/-- The transpose of the canonical 2x2 tensor over buffer `[1, 2, 3, 4]`:
shape `[2, 2]` with swapped strides `[1, 2]`, a non-contiguous view whose
logical row-major order `[1, 3, 2, 4]` differs from its physical buffer
order. -/
def tTrans : Tensor :=
  ⟨[1, 2, 3, 4], ⟨[2, 2], [1, 2]⟩⟩

/-- The 2x3 matrix `[[1, 2, 3], [4, 5, 6]]` of the matmul scenario. -/
def matA : Tensor :=
  ⟨[1, 2, 3, 4, 5, 6], TensorLayout.fromShape [2, 3]⟩

/-- The 3x2 matrix `[[7, 8], [9, 10], [11, 12]]` of the matmul scenario. -/
def matB : Tensor :=
  ⟨[7, 8, 9, 10, 11, 12], TensorLayout.fromShape [3, 2]⟩

/-- The length-3 vector `[1, 2, 3]` of the rank-1 promotion scenario. -/
def vecV : Tensor :=
  ⟨[1, 2, 3], TensorLayout.fromShape [3]⟩

/-! ### Basic layout lemmas -/

namespace TensorLayout

theorem length_rowMajorStrides (s : List Nat) : (rowMajorStrides s).length = s.length := by
  induction s with
  | nil => rfl
  | cons a rest ih => simp [rowMajorStrides, ih]

@[simp] theorem fromShape_shape (s : List Nat) : (fromShape s).shape = s := rfl

@[simp] theorem fromShape_strides (s : List Nat) : (fromShape s).strides = rowMajorStrides s := rfl

@[simp] theorem elems_fromShape (s : List Nat) : (fromShape s).elems = s.prod := rfl

theorem mem_indexSpace {shape idx : List Nat} :
    idx ∈ indexSpace shape ↔ ValidIdx shape idx := by
  induction shape generalizing idx with
  | nil =>
    simp only [indexSpace, List.mem_singleton, ValidIdx]
    constructor
    · rintro rfl
      exact List.Forall₂.nil
    · intro h
      cases h
      rfl
  | cons s rest ih =>
    simp only [indexSpace, List.mem_flatMap, List.mem_map, List.mem_range, ValidIdx]
    constructor
    · rintro ⟨i, hi, idx0, hidx0, rfl⟩
      exact List.Forall₂.cons hi (ih.mp hidx0)
    · intro h
      cases h with
      | cons hi hrest => exact ⟨_, hi, _, ih.mpr hrest, rfl⟩

theorem length_indexSpace (shape : List Nat) : (indexSpace shape).length = shape.prod := by
  induction shape with
  | nil => rfl
  | cons s rest ih =>
    simp only [indexSpace, List.length_flatMap, List.map_map]
    have hconst : (List.length ∘ fun i : Nat => (indexSpace rest).map (fun idx => i :: idx)) =
        fun _ : Nat => rest.prod := by
      funext i
      simp [ih]
    rw [hconst]
    simp [List.map_const', List.sum_replicate, smul_eq_mul, List.prod_cons]

theorem length_iter_position (l : TensorLayout) : l.iter_position.length = l.elems := by
  simp [iter_position, iter_index, length_indexSpace, elems]

theorem index_to_position_cons (s : Nat) (rest : List Nat) (i : Nat) (idx : List Nat) :
    (fromShape (s :: rest)).index_to_position (i :: idx) =
      i * rest.prod + (fromShape rest).index_to_position idx := by
  simp [index_to_position, fromShape, rowMajorStrides]

theorem range_mul_flatMap (s P : Nat) :
    (List.range s).flatMap (fun i => (List.range P).map (fun p => i * P + p)) =
      List.range (s * P) := by
  induction s with
  | zero => simp
  | succ n ih =>
    rw [List.range_succ, List.flatMap_append, ih, Nat.succ_mul, List.range_add]
    simp

theorem iter_position_fromShape (shape : List Nat) :
    (fromShape shape).iter_position = List.range shape.prod := by
  induction shape with
  | nil => decide
  | cons s rest ih =>
    have hinner : ∀ i : Nat,
        ((indexSpace rest).map (fun idx => i :: idx)).map
            ((fromShape (s :: rest)).index_to_position) =
          (List.range rest.prod).map (fun p => i * rest.prod + p) := by
      intro i
      rw [List.map_map]
      have hcomp : ((fromShape (s :: rest)).index_to_position ∘ fun idx => i :: idx) =
          (fun p => i * rest.prod + p) ∘ (fromShape rest).index_to_position := by
        funext idx
        exact index_to_position_cons s rest i idx
      rw [hcomp, ← List.map_map]
      have ihpos : (indexSpace rest).map (fromShape rest).index_to_position =
          List.range rest.prod := ih
      rw [ihpos]
    simp only [iter_position, iter_index, fromShape_shape] at ih ⊢
    simp only [indexSpace]
    rw [List.map_flatMap]
    simp only [hinner]
    rw [range_mul_flatMap]
    simp [List.prod_cons]

theorem index_to_position_lt_of_valid {shape idx : List Nat} (h : ValidIdx shape idx) :
    (fromShape shape).index_to_position idx < shape.prod := by
  induction h with
  | nil => simp [index_to_position, fromShape, rowMajorStrides]
  | @cons a b l1 l2 hab hrest ih =>
    rw [index_to_position_cons]
    have h1 : (fromShape l2).index_to_position l1 < l2.prod := ih
    calc a * l2.prod + (fromShape l2).index_to_position l1
        < a * l2.prod + l2.prod := by omega
      _ = (a + 1) * l2.prod := (Nat.succ_mul a l2.prod).symm
      _ ≤ b * l2.prod := Nat.mul_le_mul_right _ hab
      _ = (b :: l2).prod := (List.prod_cons).symm

theorem prod_pos_of_valid {shape idx : List Nat} (h : ValidIdx shape idx) : 0 < shape.prod := by
  induction h with
  | nil => simp
  | @cons a b l1 l2 hab hrest ih =>
    rw [List.prod_cons]
    exact Nat.mul_pos (by omega) ih

theorem valid_length {shape idx : List Nat} (h : ValidIdx shape idx) :
    idx.length = shape.length :=
  List.Forall₂.length_eq h

end TensorLayout

/-! ### Reshape lemmas -/

theorem TensorLayout.reshape_eq_view {l : TensorLayout} {shape : List Nat}
    (hprod : shape.prod = l.elems) (hiter : l.iter_position = List.range l.elems) :
    l.reshape shape = .ok (some (fromShape shape)) := by
  unfold TensorLayout.reshape
  simp [hprod, hiter]

theorem TensorLayout.reshape_eq_none {l : TensorLayout} {shape : List Nat}
    (hprod : shape.prod = l.elems) (hiter : l.iter_position ≠ List.range l.elems) :
    l.reshape shape = .ok none := by
  unfold TensorLayout.reshape
  simp [hprod, hiter]

theorem TensorLayout.reshape_eq_error {l : TensorLayout} {shape : List Nat}
    (hprod : shape.prod ≠ l.elems) :
    l.reshape shape = .error (.IncompatibleShapes l.shape shape) := by
  unfold TensorLayout.reshape
  simp [hprod]

theorem Tensor.reshape_of_error {t : Tensor} {shape : List Nat} {e : TensorError}
    (h : t.layout.reshape shape = .error e) :
    t.reshape shape = .error e := by
  rw [Tensor.reshape]
  split <;> rename_i heq <;> rw [h] at heq <;> simp_all

theorem Tensor.reshape_of_view {t : Tensor} {shape : List Nat} {layout : TensorLayout}
    (h : t.layout.reshape shape = .ok (some layout)) :
    t.reshape shape = .ok ⟨t.data, layout⟩ := by
  rw [Tensor.reshape]
  split <;> rename_i heq <;> rw [h] at heq <;> simp_all

theorem Tensor.reshape_of_none {t : Tensor} {shape : List Nat}
    (h : t.layout.reshape shape = .ok none) :
    t.reshape shape = (Tensor.fromVec t.data).reshape shape := by
  rw [Tensor.reshape]
  split <;> rename_i heq <;> rw [h] at heq <;> simp_all

theorem TensorLayout.iter_position_fromVec (data : List ℤ) :
    (Tensor.fromVec data).layout.iter_position =
      List.range (Tensor.fromVec data).layout.elems := by
  have h := TensorLayout.iter_position_fromShape [data.length]
  simpa [Tensor.fromVec, TensorLayout.elems] using h

theorem Tensor.reshape_eq_of_sized (t : Tensor) (shape : List Nat)
    (hs : t.Sized) (hprod : shape.prod = t.layout.elems) :
    t.reshape shape = .ok ⟨t.data, TensorLayout.fromShape shape⟩ := by
  by_cases hiter : t.layout.iter_position = List.range t.layout.elems
  · exact Tensor.reshape_of_view (TensorLayout.reshape_eq_view hprod hiter)
  · rw [Tensor.reshape_of_none (TensorLayout.reshape_eq_none hprod hiter)]
    have hprod2 : shape.prod = (Tensor.fromVec t.data).layout.elems := by
      simpa [Tensor.fromVec, TensorLayout.elems] using hprod.trans hs.symm
    exact Tensor.reshape_of_view
      (TensorLayout.reshape_eq_view hprod2 (TensorLayout.iter_position_fromVec t.data))

/-- Decidable equality of fallible results, used to evaluate concrete
scenarios. -/
instance {ε α : Type _} [DecidableEq ε] [DecidableEq α] : DecidableEq (Except ε α) := fun a b =>
  match a, b with
  | .error x, .error y =>
    if h : x = y then isTrue (congrArg Except.error h)
    else isFalse (fun hc => h (by injection hc))
  | .error _, .ok _ => isFalse (fun hc => Except.noConfusion hc)
  | .ok _, .error _ => isFalse (fun hc => Except.noConfusion hc)
  | .ok x, .ok y =>
    if h : x = y then isTrue (congrArg Except.ok h)
    else isFalse (fun hc => h (by injection hc))

theorem Tensor.reshape_ok {t r : Tensor} {shape : List Nat} (h : t.reshape shape = .ok r) :
    r = ⟨t.data, TensorLayout.fromShape shape⟩ ∧ shape.prod = t.layout.elems := by
  by_cases hprod : shape.prod = t.layout.elems
  case neg =>
    rw [Tensor.reshape_of_error (TensorLayout.reshape_eq_error hprod)] at h
    cases h
  case pos =>
    refine ⟨?_, hprod⟩
    by_cases hiter : t.layout.iter_position = List.range t.layout.elems
    · rw [Tensor.reshape_of_view (TensorLayout.reshape_eq_view hprod hiter)] at h
      cases h
      rfl
    · rw [Tensor.reshape_of_none (TensorLayout.reshape_eq_none hprod hiter)] at h
      by_cases hp2 : shape.prod = (Tensor.fromVec t.data).layout.elems
      · rw [Tensor.reshape_of_view
          (TensorLayout.reshape_eq_view hp2 (TensorLayout.iter_position_fromVec t.data))] at h
        cases h
        rfl
      · rw [Tensor.reshape_of_error (TensorLayout.reshape_eq_error hp2)] at h
        cases h

theorem Tensor.length_toList (t : Tensor) : t.toList.length = t.layout.elems := by
  simp [Tensor.toList, TensorLayout.length_iter_position]

theorem Tensor.toList_mk_fromShape (data : List ℤ) (shape : List Nat) :
    (⟨data, TensorLayout.fromShape shape⟩ : Tensor).toList =
      (List.range shape.prod).map (fun p => data.getD p 0) := by
  simp only [Tensor.toList]
  show (TensorLayout.fromShape shape).iter_position.map (fun pos => data.getD pos 0) = _
  rw [TensorLayout.iter_position_fromShape]

/-! ### Reduction over all dimensions -/

theorem zipWith_mul_replicate_zero :
    ∀ (idx : List Nat) (n : Nat),
      (List.zipWith (fun i s => i * s) idx (List.replicate n 0)).sum = 0 := by
  intro idx
  induction idx with
  | nil => intro n; simp
  | cons i rest ih =>
    intro n
    cases n with
    | zero => simp
    | succ m => simp [List.replicate_succ, ih m]

theorem foldl_set_zero (op : ℤ → ℤ → ℤ) (f : List Nat → ℤ) :
    ∀ (L : List (List Nat)) (a : ℤ),
      L.foldl (fun res idx => res.set 0 (op (res.getD 0 0) (f idx))) [a] =
        [L.foldl (fun acc idx => op acc (f idx)) a] := by
  intro L
  induction L with
  | nil => intro a; rfl
  | cons x xs ih => intro a; simpa using ih (op a (f x))

theorem TensorLayout.reduceShape_range (shape : List Nat) :
    reduceShape shape (List.range shape.length) = List.replicate shape.length 1 := by
  unfold TensorLayout.reduceShape
  rw [List.map_congr_left (g := fun _ => 1) (fun a ha => by simp [ha])]
  simp [List.map_const']

theorem TensorLayout.reduceStrides_range (shape : List Nat) :
    reduceStrides shape (List.range shape.length) = List.replicate shape.length 0 := by
  unfold TensorLayout.reduceStrides
  rw [List.map_congr_left (g := fun _ => 0) (fun a ha => by simp [ha])]
  simp [List.map_const']

theorem TensorLayout.reduce_range (l : TensorLayout) :
    l.reduce (List.range l.shape.length) =
      .ok (fromShape (List.replicate l.shape.length 1),
        ⟨List.replicate l.shape.length 1, List.replicate l.shape.length 0⟩) := by
  unfold TensorLayout.reduce
  have hcond : (List.range l.shape.length).Nodup ∧
      ∀ d ∈ List.range l.shape.length, d < l.shape.length :=
    ⟨List.nodup_range _, fun d hd => List.mem_range.mp hd⟩
  rw [if_pos hcond, TensorLayout.reduceShape_range, TensorLayout.reduceStrides_range]

theorem Tensor.reduce_all_dims (t : Tensor) (dflt : ℤ) (op : ℤ → ℤ → ℤ) :
    t.reduce (List.range t.layout.shape.length) dflt op =
      .ok ⟨[t.toList.foldl op dflt],
        TensorLayout.fromShape (List.replicate t.layout.shape.length 1)⟩ := by
  have hred := TensorLayout.reduce_range t.layout
  simp only [Tensor.reduce, hred]
  have helems : (TensorLayout.fromShape (List.replicate t.layout.shape.length 1)).elems = 1 := by
    simp [TensorLayout.elems, List.prod_replicate]
  rw [helems]
  have hdst : ∀ idx : List Nat,
      (⟨List.replicate t.layout.shape.length 1, List.replicate t.layout.shape.length 0⟩ :
        TensorLayout).index_to_position idx = 0 := by
    intro idx
    simp only [TensorLayout.index_to_position]
    exact zipWith_mul_replicate_zero idx _
  simp only [hdst, List.replicate_one]
  rw [foldl_set_zero op (fun idx => t.data.getD (t.layout.index_to_position idx) 0)]
  have htl : t.toList.foldl op dflt =
      t.layout.iter_index.foldl
        (fun acc idx => op acc (t.data.getD (t.layout.index_to_position idx) 0)) dflt := by
    simp only [Tensor.toList, TensorLayout.iter_position, List.map_map]
    rw [List.foldl_map]
    rfl
  rw [htl]

/-! ### Claim theorems -/

/-- C9: in a chained fallible arithmetic expression (`a + b + c`, or with
`*`), a term that is already a failure propagates unchanged as the value of
the whole chain: the `Result`-operand operator implementations bind through
the failure, so no further `zip` is performed once a failure occurs. -/
theorem fallible_chain_short_circuit :
    (∀ (e : TensorError) (c : Tensor), Tensor.addRT (.error e) c = .error e) ∧
    (∀ (e : TensorError) (a : Tensor), Tensor.addTR a (.error e) = .error e) ∧
    (∀ (e : TensorError) (c : Tensor), Tensor.mulRT (.error e) c = .error e) ∧
    (∀ (e : TensorError) (a : Tensor), Tensor.mulTR a (.error e) = .error e) ∧
    (∀ (e : TensorError) (b c : Tensor), Tensor.addRT (Tensor.addRT (.error e) b) c = .error e) ∧
    (∀ (e : TensorError) (b c : Tensor), Tensor.mulRT (Tensor.mulRT (.error e) b) c = .error e) :=
  ⟨fun _ _ => rfl, fun _ _ => rfl, fun _ _ => rfl, fun _ _ => rfl,
    fun _ _ _ => rfl, fun _ _ _ => rfl⟩

/-- C10: indexing a tensor by a flat position `p` returns the element at
physical buffer position `p`, ignoring the layout entirely; on the
transposed view `tTrans` the flat read at position 1 returns the buffer
element 2 while the logical row-major order has 3 at rank 1, so physical and
logical order differ. -/
theorem flat_position_indexing_physical :
    (∀ (t : Tensor) (p : Nat), t.posGet p = t.data.getD p 0) ∧
    (∀ (data : List ℤ) (l1 l2 : TensorLayout) (p : Nat),
      (⟨data, l1⟩ : Tensor).posGet p = (⟨data, l2⟩ : Tensor).posGet p) ∧
    (Tensor.shaped [2, 2] [1, 2, 3, 4] = .ok ⟨[1, 2, 3, 4], TensorLayout.fromShape [2, 2]⟩) ∧
    ((⟨[1, 2, 3, 4], TensorLayout.fromShape [2, 2]⟩ : Tensor).transpose 0 1 = .ok tTrans) ∧
    tTrans.posGet 1 = 2 ∧ tTrans.toList.getD 1 0 = 3 ∧ (2 : ℤ) ≠ 3 :=
  ⟨fun _ _ => rfl, fun _ _ _ _ => rfl, by decide, by decide, by decide, by decide, by decide⟩

/-- C6 counterexample: reducing the rank-1 tensor `[1, 2, 3]` along all of
its dimensions (`sum [0]`) yields a tensor of shape `[1]` whose single
element is the expected 6, but the result is not rank-0 as the claim
states. -/
theorem sum_all_dims_rank0_counterexample :
    (Tensor.fromVec [1, 2, 3]).sum [0] = .ok ⟨[6], TensorLayout.fromShape [1]⟩ ∧
    (⟨[6], TensorLayout.fromShape [1]⟩ : Tensor).layout.shape ≠ ([] : List Nat) := by
  exact ⟨by decide, by decide⟩

/-- C6 amended: for every tensor `t`, `t.sum` (`t.product`) over all of
`t`'s dimension indices succeeds and yields a tensor whose single element is
the fold of `+` (respectively `*`) with identity 0 (respectively 1) over
`t`'s elements in `t`'s row-major traversal order; the result's shape is
all-ones of `t`'s rank (so it is rank-0 only when `t` is already rank-0),
not rank-0 in general. -/
theorem sum_product_all_dims (t : Tensor) :
    t.sum (List.range t.layout.shape.length) =
      .ok ⟨[t.toList.foldl (fun a x => a + x) 0],
        TensorLayout.fromShape (List.replicate t.layout.shape.length 1)⟩ ∧
    t.product (List.range t.layout.shape.length) =
      .ok ⟨[t.toList.foldl (fun a x => a * x) 1],
        TensorLayout.fromShape (List.replicate t.layout.shape.length 1)⟩ :=
  ⟨Tensor.reduce_all_dims t 0 (fun x y => x + y), Tensor.reduce_all_dims t 1 (fun x y => x * y)⟩

/-! ### Swap lemmas and C8 -/

theorem TensorLayout.length_swapAt (xs : List Nat) (i j : Nat) :
    (TensorLayout.swapAt xs i j).length = xs.length := by
  simp [TensorLayout.swapAt]

theorem TensorLayout.getD_swapAt (xs : List Nat) (i j k : Nat)
    (hi : i < xs.length) (hj : j < xs.length) :
    (TensorLayout.swapAt xs i j).getD k 0 =
      if k = j then xs.getD i 0 else if k = i then xs.getD j 0 else xs.getD k 0 := by
  unfold TensorLayout.swapAt
  by_cases hk : k < xs.length
  · have hlen : k < ((xs.set i (xs.getD j 0)).set j (xs.getD i 0)).length := by
      simpa using hk
    rw [List.getD_eq_getElem _ _ hlen, List.getElem_set, List.getElem_set]
    split_ifs <;> first
      | rfl
      | omega
      | (rw [List.getD_eq_getElem _ _ hk])
  · have hkj : ¬(k = j) := by omega
    have hki : ¬(k = i) := by omega
    have h2 : ((xs.set i (xs.getD j 0)).set j (xs.getD i 0)).length ≤ k := by
      simpa using Nat.le_of_not_lt hk
    rw [List.getD_eq_default _ _ h2, if_neg hkj, if_neg hki,
      List.getD_eq_default _ _ (Nat.le_of_not_lt hk)]

theorem TensorLayout.swapAt_swapAt (xs : List Nat) (i j : Nat)
    (hi : i < xs.length) (hj : j < xs.length) :
    TensorLayout.swapAt (TensorLayout.swapAt xs i j) i j = xs := by
  have hi2 : i < (TensorLayout.swapAt xs i j).length := by
    rw [TensorLayout.length_swapAt]; exact hi
  have hj2 : j < (TensorLayout.swapAt xs i j).length := by
    rw [TensorLayout.length_swapAt]; exact hj
  have hlen : (TensorLayout.swapAt (TensorLayout.swapAt xs i j) i j).length = xs.length := by
    rw [TensorLayout.length_swapAt, TensorLayout.length_swapAt]
  apply List.ext_getElem hlen
  intro k hk1 hk2
  rw [← List.getD_eq_getElem _ 0 hk1, ← List.getD_eq_getElem _ 0 hk2]
  rw [TensorLayout.getD_swapAt _ i j k hi2 hj2]
  rw [TensorLayout.getD_swapAt xs i j j hi hj, TensorLayout.getD_swapAt xs i j i hi hj,
    TensorLayout.getD_swapAt xs i j k hi hj]
  split_ifs <;> first | rfl | omega | simp_all

/-- C8: for every tensor `t` of rank at least 2 (satisfying the layout
invariant `len(strides) == len(shape)`), `t.transpose(0,1)` succeeds without
copying the buffer, and transposing the result again yields a tensor whose
layout equals `t`'s layout exactly and whose buffer is the one `t` holds,
passed through unchanged by both transposes. -/
theorem transpose_transpose_identity (t : Tensor)
    (hlen : t.layout.strides.length = t.layout.shape.length)
    (hrank : 2 ≤ t.layout.shape.length) :
    ∃ t1 : Tensor, t.transpose 0 1 = .ok t1 ∧ t1.data = t.data ∧
      t1.transpose 0 1 = .ok ⟨t.data, t.layout⟩ := by
  have h0 : (0 : Nat) < t.layout.shape.length := by omega
  have h1 : (1 : Nat) < t.layout.shape.length := by omega
  have hc : (0 : Nat) < t.layout.shape.length ∧ (1 : Nat) < t.layout.shape.length := ⟨h0, h1⟩
  refine ⟨⟨t.data, ⟨TensorLayout.swapAt t.layout.shape 0 1,
    TensorLayout.swapAt t.layout.strides 0 1⟩⟩, ?_, rfl, ?_⟩
  · unfold Tensor.transpose TensorLayout.transpose
    rw [if_pos hc]
  · unfold Tensor.transpose TensorLayout.transpose
    have hc2 : (0 : Nat) < (TensorLayout.swapAt t.layout.shape 0 1).length ∧
        (1 : Nat) < (TensorLayout.swapAt t.layout.shape 0 1).length := by
      rw [TensorLayout.length_swapAt]
      exact hc
    rw [if_pos hc2]
    rw [TensorLayout.swapAt_swapAt t.layout.shape 0 1 h0 h1,
      TensorLayout.swapAt_swapAt t.layout.strides 0 1 (by omega) (by omega)]

/-- Witness for C8 at the canonical 2x2 tensor over `[1, 2, 3, 4]`. -/
theorem transpose_transpose_identity_witness :
    ∃ t1 : Tensor,
      (⟨[1, 2, 3, 4], TensorLayout.fromShape [2, 2]⟩ : Tensor).transpose 0 1 = .ok t1 ∧
      t1.data = (⟨[1, 2, 3, 4], TensorLayout.fromShape [2, 2]⟩ : Tensor).data ∧
      t1.transpose 0 1 = .ok ⟨(⟨[1, 2, 3, 4], TensorLayout.fromShape [2, 2]⟩ : Tensor).data,
        (⟨[1, 2, 3, 4], TensorLayout.fromShape [2, 2]⟩ : Tensor).layout⟩ :=
  transpose_transpose_identity ⟨[1, 2, 3, 4], TensorLayout.fromShape [2, 2]⟩
    (by decide) (by decide)

/-! ### Reshape round-trip (C1, C2) -/

/-- C1 counterexample: starting from the transposed view `tTrans` (reachable
as `shaped([2,2],[1,2,3,4]).transpose(0,1)`), reshaping to `[4]` (equal
element count) and back to `[2,2]` succeeds but yields logical row-major
sequence `[1, 2, 3, 4]`, while `tTrans`'s logical sequence is
`[1, 3, 2, 4]`: the round-trip does not preserve the logical elements when a
copy is required. -/
theorem reshape_roundtrip_counterexample :
    ((⟨[1, 2, 3, 4], TensorLayout.fromShape [2, 2]⟩ : Tensor).transpose 0 1 = .ok tTrans) ∧
    ([4] : List Nat).prod = tTrans.layout.elems ∧
    ((tTrans.reshape [4]).bind (fun r => r.reshape tTrans.layout.shape) =
      .ok ⟨[1, 2, 3, 4], TensorLayout.fromShape [2, 2]⟩) ∧
    (⟨[1, 2, 3, 4], TensorLayout.fromShape [2, 2]⟩ : Tensor).toList = [1, 2, 3, 4] ∧
    tTrans.toList = [1, 3, 2, 4] ∧
    ([1, 2, 3, 4] : List ℤ) ≠ [1, 3, 2, 4] := by
  refine ⟨by decide, rfl, ?_, by decide, by decide, by decide⟩
  rw [Tensor.reshape_eq_of_sized tTrans [4] rfl rfl]
  show (Tensor.mk [1, 2, 3, 4] (TensorLayout.fromShape [4])).reshape tTrans.layout.shape = _
  rw [Tensor.reshape_eq_of_sized (Tensor.mk [1, 2, 3, 4] (TensorLayout.fromShape [4]))
    tTrans.layout.shape rfl rfl]
  rfl

/-- C1 amended: for every tensor `t` whose row-major traversal already
visits buffer positions in canonical order (`iter_position = range elems`,
in particular whenever no copy is needed) and every shape `s2` with the same
element count, `t.reshape(s2).reshape(t.layout.shape)` succeeds and yields a
tensor with the same logical row-major element sequence as `t`; for a
non-contiguous view the raw-copy fallback breaks this (see the
counterexample). -/
theorem reshape_roundtrip_of_contiguous (t : Tensor) (s2 : List Nat)
    (hiter : t.layout.iter_position = List.range t.layout.elems)
    (hprod : s2.prod = t.layout.elems) :
    ((t.reshape s2).bind (fun r => r.reshape t.layout.shape)).map Tensor.toList =
      .ok t.toList := by
  rw [Tensor.reshape_of_view (TensorLayout.reshape_eq_view hprod hiter)]
  show ((Tensor.mk t.data (TensorLayout.fromShape s2)).reshape t.layout.shape).map
    Tensor.toList = _
  have hv2 : (Tensor.mk t.data (TensorLayout.fromShape s2)).layout.reshape t.layout.shape =
      .ok (some (TensorLayout.fromShape t.layout.shape)) := by
    apply TensorLayout.reshape_eq_view
    · exact hprod.symm
    · show (TensorLayout.fromShape s2).iter_position =
        List.range (TensorLayout.fromShape s2).elems
      simpa [TensorLayout.elems] using TensorLayout.iter_position_fromShape s2
  rw [Tensor.reshape_of_view hv2]
  show Except.ok (Tensor.mk t.data (TensorLayout.fromShape t.layout.shape)).toList = _
  rw [Tensor.toList_mk_fromShape]
  simp only [Tensor.toList, hiter]
  rfl

/-- Witness for C1 (amended) at the canonical 2x3 tensor and shape [3,2]. -/
theorem reshape_roundtrip_of_contiguous_witness :
    (((⟨[1, 2, 3, 4, 5, 6], TensorLayout.fromShape [2, 3]⟩ : Tensor).reshape [3, 2]).bind
      (fun r => r.reshape
        (⟨[1, 2, 3, 4, 5, 6], TensorLayout.fromShape [2, 3]⟩ : Tensor).layout.shape)).map
      Tensor.toList =
      .ok (⟨[1, 2, 3, 4, 5, 6], TensorLayout.fromShape [2, 3]⟩ : Tensor).toList :=
  reshape_roundtrip_of_contiguous ⟨[1, 2, 3, 4, 5, 6], TensorLayout.fromShape [2, 3]⟩
    [3, 2] (by decide) (by decide)

/-- C2 counterexample: `tTrans` cannot be reshaped to `[4]` as a view
(`layout.reshape` returns none); the code's fallback copies the raw buffer,
so the reshaped result's logical row-major sequence is `[1, 2, 3, 4]` (the
physical buffer order) and not `tTrans`'s logical row-major sequence
`[1, 3, 2, 4]`: the result is not a materialization of `t`'s position-order
traversal. -/
theorem reshape_fallback_not_logical_counterexample :
    tTrans.layout.reshape [4] = .ok none ∧
    tTrans.reshape [4] = .ok ⟨[1, 2, 3, 4], TensorLayout.fromShape [4]⟩ ∧
    (⟨[1, 2, 3, 4], TensorLayout.fromShape [4]⟩ : Tensor).toList = [1, 2, 3, 4] ∧
    tTrans.toList = [1, 3, 2, 4] ∧ ([1, 2, 3, 4] : List ℤ) ≠ [1, 3, 2, 4] := by
  refine ⟨by decide, ?_, by decide, by decide, by decide⟩
  rw [Tensor.reshape_eq_of_sized tTrans [4] rfl rfl]
  rfl

/-- C2 amended: when the layout cannot express the target shape as a view,
`reshape` clones the raw underlying buffer into a fresh rank-1 canonical
tensor (`Self::from(self.data.as_ref().clone())`) and retries the reshape on
it; consequently a successful result holds the same raw buffer under the
canonical layout of the new shape, and its logical row-major sequence is the
physical prefix of the buffer — not, in general, `t`'s own logical
row-major sequence (see the counterexample). -/
theorem reshape_fallback_raw_copy (t : Tensor) (shape : List Nat)
    (hnone : t.layout.reshape shape = .ok none) :
    t.reshape shape = (Tensor.fromVec t.data).reshape shape ∧
    ∀ r : Tensor, t.reshape shape = .ok r →
      r.data = t.data ∧ r.layout = TensorLayout.fromShape shape ∧
      r.toList = (List.range shape.prod).map (fun p => t.data.getD p 0) := by
  refine ⟨Tensor.reshape_of_none hnone, ?_⟩
  intro r hr
  obtain ⟨hre, -⟩ := Tensor.reshape_ok hr
  subst hre
  exact ⟨rfl, rfl, Tensor.toList_mk_fromShape t.data shape⟩

/-- Witness for C2 (amended) at the non-contiguous view `tTrans`. -/
theorem reshape_fallback_raw_copy_witness :
    tTrans.reshape [4] = (Tensor.fromVec tTrans.data).reshape [4] ∧
    ∀ r : Tensor, tTrans.reshape [4] = .ok r →
      r.data = tTrans.data ∧ r.layout = TensorLayout.fromShape [4] ∧
      r.toList = (List.range ([4] : List Nat).prod).map (fun p => tTrans.data.getD p 0) :=
  reshape_fallback_raw_copy tTrans [4] (by decide)

/-! ### Zip and broadcasting (C4) -/

theorem Tensor.zip_of_incompat {t u : Tensor} (op : ℤ → ℤ → ℤ)
    (h : TensorLayout.broadcastCompat t.layout.shape u.layout.shape = false) :
    t.zip u op = .error (.IncompatibleShapes t.layout.shape u.layout.shape) := by
  unfold Tensor.zip Tensor.broadcast TensorLayout.broadcast
  rw [h]
  simp

theorem Tensor.zip_eq_of_compat (t u : Tensor) (op : ℤ → ℤ → ℤ)
    (h : TensorLayout.broadcastCompat t.layout.shape u.layout.shape = true) :
    t.zip u op = .ok ⟨List.zipWith op
        (Tensor.toList ⟨t.data,
          ⟨TensorLayout.broadcastShape t.layout.shape u.layout.shape,
            TensorLayout.expandStrides
              (TensorLayout.padLeft t.layout.shape
                (max t.layout.shape.length u.layout.shape.length) 1)
              (TensorLayout.padLeft t.layout.strides
                (max t.layout.shape.length u.layout.shape.length) 0)
              (TensorLayout.broadcastShape t.layout.shape u.layout.shape)⟩⟩)
        (Tensor.toList ⟨u.data,
          ⟨TensorLayout.broadcastShape t.layout.shape u.layout.shape,
            TensorLayout.expandStrides
              (TensorLayout.padLeft u.layout.shape
                (max t.layout.shape.length u.layout.shape.length) 1)
              (TensorLayout.padLeft u.layout.strides
                (max t.layout.shape.length u.layout.shape.length) 0)
              (TensorLayout.broadcastShape t.layout.shape u.layout.shape)⟩⟩),
      TensorLayout.fromShape (TensorLayout.broadcastShape t.layout.shape u.layout.shape)⟩ := by
  unfold Tensor.zip Tensor.broadcast TensorLayout.broadcast
  rw [h]
  rfl

theorem Tensor.zip_ok_of_compat {t u : Tensor} (op : ℤ → ℤ → ℤ)
    (h : TensorLayout.broadcastCompat t.layout.shape u.layout.shape = true) :
    ∃ d : List ℤ,
      t.zip u op = .ok ⟨d,
        TensorLayout.fromShape (TensorLayout.broadcastShape t.layout.shape u.layout.shape)⟩ ∧
      d.length = (TensorLayout.broadcastShape t.layout.shape u.layout.shape).prod := by
  refine ⟨_, Tensor.zip_eq_of_compat t u op h, ?_⟩
  simp [List.length_zipWith, Tensor.length_toList, TensorLayout.elems]

/-- C4: `zip` (and hence the `+` and `*` operators, which are `zip` with `+`
and `*`) fails with a shape-incompatibility error naming both operand
shapes exactly when the shapes are not broadcast-compatible under the NumPy
rule; zipping shapes `[2,3]` and `[4,5]` fails with the error naming both
shapes, and adding shapes `[3,1]` and `[1,4]` succeeds with result shape
`[3,4]`. -/
theorem zip_error_iff_not_broadcastable :
    (∀ (t u : Tensor) (op : ℤ → ℤ → ℤ),
      t.zip u op = .error (.IncompatibleShapes t.layout.shape u.layout.shape) ↔
        TensorLayout.broadcastCompat t.layout.shape u.layout.shape = false) ∧
    (∀ (t u : Tensor) (op : ℤ → ℤ → ℤ),
      (∃ r, t.zip u op = .ok r) ↔
        TensorLayout.broadcastCompat t.layout.shape u.layout.shape = true) ∧
    (∀ t u : Tensor, t.add u = t.zip u (fun x y => x + y)) ∧
    (∀ t u : Tensor, t.mul u = t.zip u (fun x y => x * y)) ∧
    (∀ op : ℤ → ℤ → ℤ,
      (⟨[1, 2, 3, 4, 5, 6], TensorLayout.fromShape [2, 3]⟩ : Tensor).zip
        (⟨List.replicate 20 0, TensorLayout.fromShape [4, 5]⟩ : Tensor) op =
        .error (.IncompatibleShapes [2, 3] [4, 5])) ∧
    ((⟨[1, 2, 3], TensorLayout.fromShape [3, 1]⟩ : Tensor).add
        (⟨[1, 2, 3, 4], TensorLayout.fromShape [1, 4]⟩ : Tensor)).map
      (fun r => r.layout.shape) = .ok [3, 4] := by
  refine ⟨?_, ?_, fun t u => rfl, fun t u => rfl, ?_, by decide⟩
  · intro t u op
    constructor
    · intro he
      cases hb : TensorLayout.broadcastCompat t.layout.shape u.layout.shape
      · rfl
      · obtain ⟨d, hd, -⟩ := Tensor.zip_ok_of_compat op hb
        rw [hd] at he
        cases he
    · intro hb
      exact Tensor.zip_of_incompat op hb
  · intro t u op
    constructor
    · rintro ⟨r, hr⟩
      cases hb : TensorLayout.broadcastCompat t.layout.shape u.layout.shape
      · rw [Tensor.zip_of_incompat op hb] at hr
        cases hr
      · rfl
    · intro hb
      obtain ⟨d, hd, -⟩ := Tensor.zip_ok_of_compat op hb
      exact ⟨_, hd⟩
  · intro op
    exact Tensor.zip_of_incompat op (by decide)

/-! ### Evaluation shims: `Tensor.reshape` is defined by well-founded
recursion (mirroring the recursive fallback of the source), which the kernel
cannot evaluate; `reshapeImpl` / `matmulImpl` are non-recursive functions
proven equal to them, used only to evaluate concrete scenarios. -/

/-- One-step unfolding of `Tensor.reshape`: the recursive fallback retries
on a canonical rank-1 tensor, which never falls back again (its traversal is
already canonical), so the recursion always stops after one step; the final
branch is unreachable. -/
def reshapeImpl (t : Tensor) (shape : List Nat) : Except TensorError Tensor :=
  match t.layout.reshape shape with
  | .error e => .error e
  | .ok (some layout) => .ok ⟨t.data, layout⟩
  | .ok none =>
    match (Tensor.fromVec t.data).layout.reshape shape with
    | .error e => .error e
    | .ok (some layout) => .ok ⟨t.data, layout⟩
    | .ok none => .error (.IncompatibleShapes t.layout.shape shape)

theorem Tensor.reshape_eq_impl (t : Tensor) (shape : List Nat) :
    t.reshape shape = reshapeImpl t shape := by
  unfold reshapeImpl
  cases hres : t.layout.reshape shape with
  | error e => rw [Tensor.reshape_of_error hres]
  | ok o =>
    cases o with
    | some layout => rw [Tensor.reshape_of_view hres]
    | none =>
      rw [Tensor.reshape_of_none hres]
      cases hres2 : (Tensor.fromVec t.data).layout.reshape shape with
      | error e => rw [Tensor.reshape_of_error hres2]
      | ok o2 =>
        cases o2 with
        | some l2 =>
          rw [Tensor.reshape_of_view hres2]
          rfl
        | none =>
          exfalso
          by_cases hp : shape.prod = (Tensor.fromVec t.data).layout.elems
          · rw [TensorLayout.reshape_eq_view hp
              (TensorLayout.iter_position_fromVec t.data)] at hres2
            cases hres2
          · rw [TensorLayout.reshape_eq_error hp] at hres2
            cases hres2

/-- `Tensor.matmul` with its three reshape calls replaced by `reshapeImpl`;
used only to evaluate concrete scenarios. -/
def matmulImpl (t other : Tensor) : Except TensorError Tensor :=
  let lhsShape0 := t.layout.shape
  let rhsShape0 := other.layout.shape
  if lhsShape0.length = 0 ∨ rhsShape0.length = 0 then
    .error (.IncompatibleShapes lhsShape0 rhsShape0)
  else
    let lhsShape1 := matmulPromoteL lhsShape0
    let rhsShape1 := matmulPromoteR rhsShape0
    if lhsShape1.getD (lhsShape1.length - 1) 0 ≠ rhsShape1.getD (rhsShape1.length - 2) 0 then
      .error (.IncompatibleShapes lhsShape1 rhsShape1)
    else
      let lhsShape2 := lhsShape1.insertIdx (lhsShape1.length - 1) 1
      let rhsShape2 := rhsShape1.insertIdx (rhsShape1.length - 2) 1
      match reshapeImpl t lhsShape2 with
      | .error e => .error e
      | .ok lhs =>
        match reshapeImpl other rhsShape2 with
        | .error e => .error e
        | .ok rhs =>
          match rhs.transpose (rhsShape2.length - 1) (rhsShape2.length - 2) with
          | .error e => .error e
          | .ok rhsT =>
            match lhs.mul rhsT with
            | .error e => .error e
            | .ok prod =>
              match prod.sum [prod.layout.shape.length - 1] with
              | .error e => .error e
              | .ok sumprod =>
                let shape3 := sumprod.layout.shape.dropLast
                let shape4 := if lhsShape0.length = 1 then
                    shape3.eraseIdx (shape3.length - 2) else shape3
                let shape5 := if rhsShape0.length = 1 then
                    shape4.eraseIdx (shape4.length - 1) else shape4
                reshapeImpl sumprod shape5

theorem Tensor.matmul_eq_impl (t other : Tensor) :
    t.matmul other = matmulImpl t other := by
  unfold Tensor.matmul matmulImpl
  simp only [Tensor.reshape_eq_impl]

/-- C3: `matA` (the 2x3 matrix `[[1,2,3],[4,5,6]]`) times `matB` (the 3x2
matrix `[[7,8],[9,10],[11,12]]`) succeeds with shape `[2,2]` and the
standard matrix-product entries `[[58,64],[139,154]]`; the rank-1 vector
`vecV = [1,2,3]` times `matB` succeeds with shape `[2]` and entries
`[58,64]` (the prepended promotion axis is removed). -/
theorem matmul_scenarios :
    Tensor.shaped [2, 3] [1, 2, 3, 4, 5, 6] = .ok matA ∧
    Tensor.shaped [3, 2] [7, 8, 9, 10, 11, 12] = .ok matB ∧
    Tensor.fromVec [1, 2, 3] = vecV ∧
    matA.matmul matB = .ok ⟨[58, 64, 139, 154], TensorLayout.fromShape [2, 2]⟩ ∧
    vecV.matmul matB = .ok ⟨[58, 64], TensorLayout.fromShape [2]⟩ := by
  refine ⟨by decide, by decide, by decide, ?_, ?_⟩
  · rw [Tensor.matmul_eq_impl]
    decide
  · rw [Tensor.matmul_eq_impl]
    decide

/-! ### The in-bounds invariant (C5) -/

theorem TensorLayout.validIdx_iff_getD {shape idx : List Nat} :
    TensorLayout.ValidIdx shape idx ↔ idx.length = shape.length ∧
      ∀ k, k < shape.length → idx.getD k 0 < shape.getD k 0 := by
  rw [TensorLayout.ValidIdx, List.forall₂_iff_get]
  constructor
  · rintro ⟨hl, hp⟩
    refine ⟨hl, fun k hk => ?_⟩
    have h := hp k (by omega) hk
    rw [List.getD_eq_getElem _ _ (by omega), List.getD_eq_getElem _ _ hk]
    simpa [List.get_eq_getElem] using h
  · rintro ⟨hl, hp⟩
    refine ⟨hl, fun k h1 h2 => ?_⟩
    have h := hp k h2
    rw [List.getD_eq_getElem _ _ h1, List.getD_eq_getElem _ _ h2] at h
    simpa [List.get_eq_getElem] using h

theorem Tensor.wf_of_canonical {data : List ℤ} {shape : List Nat}
    (h : shape.prod ≤ data.length) :
    Tensor.WF ⟨data, TensorLayout.fromShape shape⟩ := by
  constructor
  · simp [TensorLayout.length_rowMajorStrides]
  · intro idx hvalid
    exact lt_of_lt_of_le (TensorLayout.index_to_position_lt_of_valid hvalid) h

theorem Tensor.wf_scalar (x : ℤ) : (Tensor.scalar x).WF :=
  Tensor.wf_of_canonical (by simp)

theorem Tensor.wf_shaped {shape : List Nat} {data : List ℤ} {t : Tensor}
    (h : Tensor.shaped shape data = .ok t) : t.WF := by
  simp only [Tensor.shaped] at h
  split at h
  · cases h
  · cases h
    rename_i hlen
    simp only [TensorLayout.elems, TensorLayout.fromShape_shape, ne_eq, not_not] at hlen
    exact Tensor.wf_of_canonical (le_of_eq hlen)

theorem Tensor.wf_fromVec (data : List ℤ) : (Tensor.fromVec data).WF :=
  Tensor.wf_of_canonical (by simp)

theorem Tensor.wf_rand (sample : Nat → ℤ) (shape : List Nat) :
    (Tensor.rand sample shape).WF :=
  Tensor.wf_of_canonical (by simp [TensorLayout.elems])

theorem Tensor.wf_map (t : Tensor) (op : ℤ → ℤ) : (t.map op).WF :=
  Tensor.wf_of_canonical
    (le_of_eq (by simp [Tensor.map, Tensor.length_toList, TensorLayout.elems]))

theorem Tensor.wf_zip {t u r : Tensor} {op : ℤ → ℤ → ℤ}
    (hr : t.zip u op = .ok r) : r.WF := by
  cases hb : TensorLayout.broadcastCompat t.layout.shape u.layout.shape with
  | false =>
    rw [Tensor.zip_of_incompat op hb] at hr
    cases hr
  | true =>
    obtain ⟨d, hd, hlen⟩ := Tensor.zip_ok_of_compat op hb
    rw [hd] at hr
    cases hr
    exact Tensor.wf_of_canonical (le_of_eq hlen.symm)

theorem foldl_length_invariant {α β : Type _} (step : List α → β → List α)
    (hstep : ∀ res x, (step res x).length = res.length) :
    ∀ (L : List β) (res : List α), (L.foldl step res).length = res.length := by
  intro L
  induction L with
  | nil => intro res; rfl
  | cons x xs ih =>
    intro res
    rw [List.foldl_cons, ih, hstep]

theorem Tensor.reduce_error {t : Tensor} {dims : List Nat} {dflt : ℤ} {op : ℤ → ℤ → ℤ}
    (hcond : ¬(dims.Nodup ∧ ∀ d ∈ dims, d < t.layout.shape.length)) :
    t.reduce dims dflt op = .error (.IncompatibleShapes t.layout.shape dims) := by
  unfold Tensor.reduce TensorLayout.reduce
  rw [if_neg hcond]

theorem Tensor.reduce_eq_of_cond (t : Tensor) (dims : List Nat) (dflt : ℤ) (op : ℤ → ℤ → ℤ)
    (hcond : dims.Nodup ∧ ∀ d ∈ dims, d < t.layout.shape.length) :
    t.reduce dims dflt op = .ok ⟨
      t.layout.iter_index.foldl (fun res idx =>
        res.set
          ((⟨TensorLayout.reduceShape t.layout.shape dims,
            TensorLayout.reduceStrides t.layout.shape dims⟩ :
              TensorLayout).index_to_position idx)
          (op (res.getD
            ((⟨TensorLayout.reduceShape t.layout.shape dims,
              TensorLayout.reduceStrides t.layout.shape dims⟩ :
                TensorLayout).index_to_position idx) 0)
            (t.data.getD (t.layout.index_to_position idx) 0)))
        (List.replicate (TensorLayout.fromShape
          (TensorLayout.reduceShape t.layout.shape dims)).elems dflt),
      TensorLayout.fromShape (TensorLayout.reduceShape t.layout.shape dims)⟩ := by
  unfold Tensor.reduce TensorLayout.reduce
  rw [if_pos hcond]

theorem Tensor.wf_reduce {t r : Tensor} {dims : List Nat} {dflt : ℤ} {op : ℤ → ℤ → ℤ}
    (hr : t.reduce dims dflt op = .ok r) : r.WF := by
  by_cases hcond : dims.Nodup ∧ ∀ d ∈ dims, d < t.layout.shape.length
  · rw [Tensor.reduce_eq_of_cond t dims dflt op hcond] at hr
    cases hr
    apply Tensor.wf_of_canonical
    rw [foldl_length_invariant _ (fun res idx => List.length_set res _ _)]
    simp [TensorLayout.elems]
  · rw [Tensor.reduce_error hcond] at hr
    cases hr

theorem Tensor.wf_sum {t r : Tensor} {dims : List Nat} (hr : t.sum dims = .ok r) : r.WF :=
  Tensor.wf_reduce hr

theorem Tensor.wf_product {t r : Tensor} {dims : List Nat} (hr : t.product dims = .ok r) :
    r.WF :=
  Tensor.wf_reduce hr

theorem zipWith_mul_sum_eq (a b : List Nat) :
    (List.zipWith (fun i s => i * s) a b).sum =
      ∑ k in Finset.range (min a.length b.length), a.getD k 0 * b.getD k 0 := by
  induction a generalizing b with
  | nil => simp
  | cons x xs ih =>
    cases b with
    | nil => simp
    | cons y ys =>
      rw [List.zipWith_cons_cons, List.sum_cons, ih ys]
      rw [List.length_cons, List.length_cons, Nat.succ_min_succ, Finset.sum_range_succ']
      simp only [List.getD_cons_succ, List.getD_cons_zero]
      exact Nat.add_comm _ _

theorem sum_swap_mul (A S : Nat → Nat) (n i j : Nat) (hi : i < n) (hj : j < n) :
    ∑ k in Finset.range n, A k * S (Equiv.swap i j k) =
      ∑ k in Finset.range n, A (Equiv.swap i j k) * S k := by
  apply Finset.sum_equiv (Equiv.swap i j)
  · intro k
    simp only [Finset.mem_range, Equiv.swap_apply_def]
    split_ifs <;> omega
  · intro k hk
    rw [Equiv.swap_apply_self]

theorem Tensor.wf_transpose {t r : Tensor} {i j : Nat} (h : t.WF)
    (hr : t.transpose i j = .ok r) : r.WF := by
  obtain ⟨hlen, hpos⟩ := h
  unfold Tensor.transpose TensorLayout.transpose at hr
  split at hr
  case _ => cases hr
  case _ =>
    rename_i layout heq
    cases hr
    split at heq
    rename_i hij
    cases heq
    obtain ⟨hi, hj⟩ := hij
    have hi2 : i < t.layout.strides.length := by omega
    have hj2 : j < t.layout.strides.length := by omega
    constructor
    · simp only [TensorLayout.length_swapAt]
      exact hlen
    · intro idx hvalid
      have hsl : (TensorLayout.swapAt t.layout.shape i j).length = t.layout.shape.length :=
        TensorLayout.length_swapAt _ _ _
      rw [TensorLayout.validIdx_iff_getD, hsl] at hvalid
      obtain ⟨hidxlen, hidxbound⟩ := hvalid
      have hvalid0 : TensorLayout.ValidIdx t.layout.shape (TensorLayout.swapAt idx i j) := by
        rw [TensorLayout.validIdx_iff_getD]
        refine ⟨by rw [TensorLayout.length_swapAt, hidxlen], ?_⟩
        intro k hk
        rw [TensorLayout.getD_swapAt idx i j k (by omega) (by omega)]
        by_cases hkj : k = j
        · rw [if_pos hkj, hkj]
          have hbi := hidxbound i hi
          rw [TensorLayout.getD_swapAt t.layout.shape i j i hi hj] at hbi
          by_cases hij' : i = j
          · rw [if_pos hij'] at hbi
            rw [← hij']
            exact hbi
          · rw [if_neg hij', if_pos rfl] at hbi
            exact hbi
        · rw [if_neg hkj]
          by_cases hki : k = i
          · rw [if_pos hki, hki]
            have hbj := hidxbound j hj
            rw [TensorLayout.getD_swapAt t.layout.shape i j j hi hj] at hbj
            rw [if_pos rfl] at hbj
            exact hbj
          · rw [if_neg hki]
            have hbk := hidxbound k hk
            rw [TensorLayout.getD_swapAt t.layout.shape i j k hi hj] at hbk
            rw [if_neg hkj, if_neg hki] at hbk
            exact hbk
      have hpos_eq :
          (⟨TensorLayout.swapAt t.layout.shape i j, TensorLayout.swapAt t.layout.strides i j⟩ :
            TensorLayout).index_to_position idx =
          t.layout.index_to_position (TensorLayout.swapAt idx i j) := by
        show (List.zipWith (fun a s => a * s) idx (TensorLayout.swapAt t.layout.strides i j)).sum =
          (List.zipWith (fun a s => a * s) (TensorLayout.swapAt idx i j) t.layout.strides).sum
        rw [zipWith_mul_sum_eq, zipWith_mul_sum_eq]
        have hl1 : min idx.length (TensorLayout.swapAt t.layout.strides i j).length =
            t.layout.shape.length := by
          rw [TensorLayout.length_swapAt]
          omega
        have hl2 : min (TensorLayout.swapAt idx i j).length t.layout.strides.length =
            t.layout.shape.length := by
          rw [TensorLayout.length_swapAt]
          omega
        rw [hl1, hl2]
        have hstep1 : ∀ k ∈ Finset.range t.layout.shape.length,
            idx.getD k 0 * (TensorLayout.swapAt t.layout.strides i j).getD k 0 =
              idx.getD k 0 * t.layout.strides.getD (Equiv.swap i j k) 0 := by
          intro k hk
          rw [TensorLayout.getD_swapAt t.layout.strides i j k hi2 hj2, Equiv.swap_apply_def]
          split_ifs <;> simp_all
        have hstep2 : ∀ k ∈ Finset.range t.layout.shape.length,
            (TensorLayout.swapAt idx i j).getD k 0 * t.layout.strides.getD k 0 =
              idx.getD (Equiv.swap i j k) 0 * t.layout.strides.getD k 0 := by
          intro k hk
          rw [TensorLayout.getD_swapAt idx i j k (by omega) (by omega), Equiv.swap_apply_def]
          split_ifs <;> simp_all
        rw [Finset.sum_congr rfl hstep1, Finset.sum_congr rfl hstep2]
        exact sum_swap_mul (fun k => idx.getD k 0) (fun k => t.layout.strides.getD k 0)
          t.layout.shape.length i j hi hj
      rw [hpos_eq]
      exact hpos _ hvalid0
    cases heq

theorem squeeze_transport :
    ∀ (pairs : List (Nat × Nat)) (idx : List Nat),
      TensorLayout.ValidIdx ((TensorLayout.squeezePairs pairs).map Prod.fst) idx →
      ∃ idx0 : List Nat, TensorLayout.ValidIdx (pairs.map Prod.fst) idx0 ∧
        (List.zipWith (fun i s => i * s) idx0 (pairs.map Prod.snd)).sum =
          (List.zipWith (fun i s => i * s) idx
            ((TensorLayout.squeezePairs pairs).map Prod.snd)).sum := by
  intro pairs
  induction pairs with
  | nil =>
    intro idx h
    exact ⟨idx, h, rfl⟩
  | cons p rest ih =>
    intro idx h
    by_cases hp : p.1 = 1
    · rw [show TensorLayout.squeezePairs (p :: rest) = TensorLayout.squeezePairs rest by
        simp [TensorLayout.squeezePairs, hp]] at h
      obtain ⟨idx0, h0, hsum⟩ := ih idx h
      refine ⟨0 :: idx0, List.Forall₂.cons (by omega) h0, ?_⟩
      rw [show TensorLayout.squeezePairs (p :: rest) = TensorLayout.squeezePairs rest by
        simp [TensorLayout.squeezePairs, hp]]
      simpa using hsum
    · rw [show TensorLayout.squeezePairs (p :: rest) = p :: TensorLayout.squeezePairs rest by
        simp [TensorLayout.squeezePairs, hp]] at h
      cases h with
      | cons hi hrest =>
        rename_i a l1
        obtain ⟨idx0, h0, hsum⟩ := ih _ hrest
        refine ⟨a :: idx0, List.Forall₂.cons hi h0, ?_⟩
        rw [show TensorLayout.squeezePairs (p :: rest) = p :: TensorLayout.squeezePairs rest by
          simp [TensorLayout.squeezePairs, hp]]
        simp only [List.map_cons, List.zipWith_cons_cons, List.sum_cons, hsum]

theorem Tensor.wf_squeeze {t : Tensor} (h : t.WF) : t.squeeze.WF := by
  obtain ⟨hlen, hpos⟩ := h
  constructor
  · simp [Tensor.squeeze, TensorLayout.squeeze]
  · intro idx hvalid
    have hfst : (t.layout.shape.zip t.layout.strides).map Prod.fst = t.layout.shape :=
      List.map_fst_zip _ _ (by omega)
    have hsnd : (t.layout.shape.zip t.layout.strides).map Prod.snd = t.layout.strides :=
      List.map_snd_zip _ _ (by omega)
    obtain ⟨idx0, h0, hsum⟩ :=
      squeeze_transport (t.layout.shape.zip t.layout.strides) idx hvalid
    rw [hfst] at h0
    have hb := hpos idx0 h0
    show (List.zipWith (fun i s => i * s) idx
      ((TensorLayout.squeezePairs (t.layout.shape.zip t.layout.strides)).map Prod.snd)).sum <
        t.data.length
    rw [← hsum, hsnd]
    exact hb

theorem perm_of_cover {order : List Nat} {n : Nat} (hlen : order.length = n)
    (hcov : ∀ i ∈ List.range n, i ∈ order) : order.Perm (List.range n) := by
  have hsub : List.range n ⊆ order := fun x hx => hcov x hx
  have hsp : (List.range n).Subperm order := (List.nodup_range n).subperm hsub
  exact (hsp.perm_of_length_le (by simp [hlen])).symm

theorem list_sum_getD (l : List Nat) : l.sum = ∑ k in Finset.range l.length, l.getD k 0 := by
  induction l with
  | nil => simp
  | cons x xs ih =>
    rw [List.sum_cons, List.length_cons, Finset.sum_range_succ', ih]
    simp only [List.getD_cons_succ, List.getD_cons_zero]
    exact Nat.add_comm _ _

theorem getD_map_lt {f : Nat → Nat} {l : List Nat} {k : Nat} (hk : k < l.length) :
    (l.map f).getD k 0 = f (l.getD k 0) := by
  rw [List.getD_eq_getElem _ _ (by simpa using hk), List.getElem_map,
    List.getD_eq_getElem _ _ hk]

theorem getD_range_lt {n k : Nat} (hk : k < n) : (List.range n).getD k 0 = k := by
  rw [List.getD_eq_getElem _ _ (by simpa using hk), List.getElem_range]

theorem Tensor.wf_permute {t r : Tensor} {order : List Nat} (h : t.WF)
    (hr : t.permute order = .ok r) : r.WF := by
  obtain ⟨hlen, hpos⟩ := h
  unfold Tensor.permute TensorLayout.permute at hr
  split at hr
  case _ => cases hr
  case _ =>
    rename_i layout heq
    cases hr
    split at heq
    rename_i hcond
    cases heq
    obtain ⟨holen, hocov⟩ := hcond
    have hperm : order.Perm (List.range t.layout.shape.length) := perm_of_cover holen hocov
    have hnodup : order.Nodup := (hperm.symm).nodup (List.nodup_range _)
    constructor
    · simp
    · intro idx hvalid
      rw [TensorLayout.validIdx_iff_getD] at hvalid
      obtain ⟨hilen, hibound⟩ := hvalid
      rw [List.length_map] at hilen
      have hvalid0 : TensorLayout.ValidIdx t.layout.shape
          ((List.range t.layout.shape.length).map
            (fun p => idx.getD (List.indexOf p order) 0)) := by
        rw [TensorLayout.validIdx_iff_getD]
        refine ⟨by simp, ?_⟩
        intro k hk
        have hkord : k ∈ order := hocov k (List.mem_range.mpr hk)
        have hio : List.indexOf k order < order.length := List.indexOf_lt_length.mpr hkord
        rw [getD_map_lt (by simpa using hk), getD_range_lt hk]
        have hb := hibound (List.indexOf k order) (by rw [List.length_map]; exact hio)
        rw [getD_map_lt hio] at hb
        have hgo : order.getD (List.indexOf k order) 0 = k := by
          rw [List.getD_eq_getElem _ _ hio]
          exact List.getElem_indexOf hio
        rwa [hgo] at hb
      have hb0 := hpos _ hvalid0
      show (List.zipWith (fun i s => i * s) idx
        (order.map (fun i => t.layout.strides.getD i 0))).sum < t.data.length
      have hposeq : (List.zipWith (fun i s => i * s) idx
          (order.map (fun i => t.layout.strides.getD i 0))).sum =
          (List.zipWith (fun i s => i * s)
            ((List.range t.layout.shape.length).map
              (fun p => idx.getD (List.indexOf p order) 0))
            t.layout.strides).sum := by
        rw [zipWith_mul_sum_eq, zipWith_mul_sum_eq]
        have hm1 : min idx.length (order.map (fun i => t.layout.strides.getD i 0)).length =
            order.length := by
          rw [List.length_map]
          omega
        have hm2 : min ((List.range t.layout.shape.length).map
            (fun p => idx.getD (List.indexOf p order) 0)).length t.layout.strides.length =
            t.layout.shape.length := by
          rw [List.length_map, List.length_range]
          omega
        rw [hm1, hm2]
        have hterm1 : ∀ k ∈ Finset.range order.length,
            idx.getD k 0 * (order.map (fun i => t.layout.strides.getD i 0)).getD k 0 =
              (fun p => idx.getD (List.indexOf p order) 0 * t.layout.strides.getD p 0)
                (order.getD k 0) := by
          intro k hk
          rw [Finset.mem_range] at hk
          rw [getD_map_lt hk]
          have hik : List.indexOf (order.getD k 0) order = k := by
            rw [List.getD_eq_getElem _ _ hk]
            exact List.indexOf_getElem hnodup k hk
          show idx.getD k 0 * t.layout.strides.getD (order.getD k 0) 0 =
            idx.getD (List.indexOf (order.getD k 0) order) 0 *
              t.layout.strides.getD (order.getD k 0) 0
          rw [hik]
        rw [Finset.sum_congr rfl hterm1]
        have hsum1 : ∑ k in Finset.range order.length,
            (fun p => idx.getD (List.indexOf p order) 0 * t.layout.strides.getD p 0)
              (order.getD k 0) =
            (order.map (fun p => idx.getD (List.indexOf p order) 0 *
              t.layout.strides.getD p 0)).sum := by
          rw [list_sum_getD, List.length_map]
          apply Finset.sum_congr rfl
          intro k hk
          rw [Finset.mem_range] at hk
          rw [getD_map_lt hk]
        rw [hsum1]
        have hmapperm := hperm.map (fun p => idx.getD (List.indexOf p order) 0 *
          t.layout.strides.getD p 0)
        rw [hmapperm.sum_eq]
        rw [list_sum_getD, List.length_map, List.length_range]
        apply Finset.sum_congr rfl
        intro p hp
        rw [Finset.mem_range] at hp
        rw [getD_map_lt (by simpa using hp), getD_range_lt hp,
          getD_map_lt (by simpa using hp), getD_range_lt hp]
      rw [hposeq]
      exact hb0
    cases heq

theorem Tensor.wf_reshape {t r : Tensor} {shape : List Nat} (h : t.WF)
    (hr : t.reshape shape = .ok r) : r.WF := by
  obtain ⟨hre, hprod⟩ := Tensor.reshape_ok hr
  subst hre
  by_cases hiter : t.layout.iter_position = List.range t.layout.elems
  · apply Tensor.wf_of_canonical
    rcases Nat.eq_zero_or_pos shape.prod with h0 | hpos0
    · omega
    · have helems : 0 < t.layout.elems := hprod ▸ hpos0
      have hmem : t.layout.elems - 1 ∈ t.layout.iter_position := by
        rw [hiter]
        exact List.mem_range.mpr (by omega)
      obtain ⟨idx, hidxmem, hidxpos⟩ := List.mem_map.mp hmem
      have hidxvalid : TensorLayout.ValidIdx t.layout.shape idx :=
        TensorLayout.mem_indexSpace.mp hidxmem
      have hb := h.2 idx hidxvalid
      omega
  · have heq := Tensor.reshape_of_none (TensorLayout.reshape_eq_none hprod hiter)
    rw [heq] at hr
    obtain ⟨-, hprod2⟩ := Tensor.reshape_ok hr
    apply Tensor.wf_of_canonical
    simp only [Tensor.fromVec, TensorLayout.elems, TensorLayout.fromShape_shape,
      List.prod_cons, List.prod_nil, Nat.mul_one] at hprod2
    omega

theorem Tensor.wf_matmul {a b r : Tensor} (hr : a.matmul b = .ok r) : r.WF := by
  simp only [Tensor.matmul] at hr
  repeat' split at hr
  all_goals first
    | cases hr
    | exact Tensor.wf_reshape (Tensor.wf_sum (by assumption)) hr

theorem Tensor.wf_add {t u r : Tensor} (hr : t.add u = .ok r) : r.WF :=
  Tensor.wf_zip hr

theorem Tensor.wf_mul {t u r : Tensor} (hr : t.mul u = .ok r) : r.WF :=
  Tensor.wf_zip hr

/-- C5: the safety invariant — strides and shape have equal length, and
every buffer position the layout produces via `index_to_position` for any
valid full per-dimension index is strictly below the buffer length, so
indexing by a valid index never reads out of bounds — is established by
every public constructor (`scalar`, `shaped`, `from`, `rand`) and preserved
by every public operation (`map`, `zip`, `+`, `*`, `reduce`, `sum`,
`product`, `squeeze`, `transpose`, `permute`, `reshape`, `matmul`). -/
theorem tensor_wf_invariant :
    (∀ (t : Tensor) (index : List Nat), t.WF →
      TensorLayout.ValidIdx t.layout.shape index →
      t.layout.index_to_position index < t.data.length) ∧
    (∀ x : ℤ, (Tensor.scalar x).WF) ∧
    (∀ (shape : List Nat) (data : List ℤ) (t : Tensor),
      Tensor.shaped shape data = .ok t → t.WF) ∧
    (∀ data : List ℤ, (Tensor.fromVec data).WF) ∧
    (∀ (sample : Nat → ℤ) (shape : List Nat), (Tensor.rand sample shape).WF) ∧
    (∀ (t : Tensor) (op : ℤ → ℤ), (t.map op).WF) ∧
    (∀ (t u r : Tensor) (op : ℤ → ℤ → ℤ), t.zip u op = .ok r → r.WF) ∧
    (∀ t u r : Tensor, t.add u = .ok r → r.WF) ∧
    (∀ t u r : Tensor, t.mul u = .ok r → r.WF) ∧
    (∀ (t r : Tensor) (dims : List Nat) (dflt : ℤ) (op : ℤ → ℤ → ℤ),
      t.reduce dims dflt op = .ok r → r.WF) ∧
    (∀ (t r : Tensor) (dims : List Nat), t.sum dims = .ok r → r.WF) ∧
    (∀ (t r : Tensor) (dims : List Nat), t.product dims = .ok r → r.WF) ∧
    (∀ t : Tensor, t.WF → t.squeeze.WF) ∧
    (∀ (t r : Tensor) (i j : Nat), t.WF → t.transpose i j = .ok r → r.WF) ∧
    (∀ (t r : Tensor) (order : List Nat), t.WF → t.permute order = .ok r → r.WF) ∧
    (∀ (t r : Tensor) (shape : List Nat), t.WF → t.reshape shape = .ok r → r.WF) ∧
    (∀ a b r : Tensor, a.matmul b = .ok r → r.WF) :=
  ⟨fun _ _ h hv => h.2 _ hv,
    Tensor.wf_scalar,
    fun _ _ _ h => Tensor.wf_shaped h,
    Tensor.wf_fromVec,
    Tensor.wf_rand,
    Tensor.wf_map,
    fun _ _ _ _ h => Tensor.wf_zip h,
    fun _ _ _ h => Tensor.wf_add h,
    fun _ _ _ h => Tensor.wf_mul h,
    fun _ _ _ _ _ h => Tensor.wf_reduce h,
    fun _ _ _ h => Tensor.wf_sum h,
    fun _ _ _ h => Tensor.wf_product h,
    fun _ h => Tensor.wf_squeeze h,
    fun _ _ _ _ h hr => Tensor.wf_transpose h hr,
    fun _ _ _ h hr => Tensor.wf_permute h hr,
    fun _ _ _ h hr => Tensor.wf_reshape h hr,
    fun _ _ _ h => Tensor.wf_matmul h⟩

/-- Witness for C5: the invariant transported through a transpose at a
concrete tensor (`tTrans` is the transpose of the canonical 2x2 tensor),
with both hypotheses discharged concretely. -/
theorem tensor_wf_invariant_witness : tTrans.WF :=
  tensor_wf_invariant.2.2.2.2.2.2.2.2.2.2.2.2.2.1
    ⟨[1, 2, 3, 4], TensorLayout.fromShape [2, 2]⟩ tTrans 0 1
    (Tensor.wf_of_canonical (by decide)) (by decide)

/-! ### Matmul failure analysis (C7) -/

theorem prod_insertIdx_one : ∀ (l : List Nat) (k : Nat), k ≤ l.length →
    (List.insertIdx k 1 l).prod = l.prod := by
  intro l
  induction l with
  | nil =>
    intro k hk
    have : k = 0 := by simpa using hk
    simp [this]
  | cons a rest ih =>
    intro k hk
    cases k with
    | zero => simp [List.insertIdx_zero]
    | succ m =>
      rw [List.insertIdx_succ_cons]
      simp only [List.prod_cons]
      rw [ih m (by simpa using hk)]

theorem prod_promoteL (s : List Nat) : (matmulPromoteL s).prod = s.prod := by
  unfold matmulPromoteL
  split <;> simp

theorem prod_promoteR (s : List Nat) : (matmulPromoteR s).prod = s.prod := by
  unfold matmulPromoteR
  split <;> simp [List.prod_append]

theorem length_promoteL_ge {s : List Nat} (h : s.length ≠ 0) :
    2 ≤ (matmulPromoteL s).length := by
  unfold matmulPromoteL
  split
  · simp only [List.length_cons]
    omega
  · rename_i h1
    omega

theorem length_promoteR_ge {s : List Nat} (h : s.length ≠ 0) :
    2 ≤ (matmulPromoteR s).length := by
  unfold matmulPromoteR
  split
  · simp only [List.length_append, List.length_cons, List.length_nil]
    omega
  · rename_i h1
    omega

theorem exists_append_two {l : List Nat} (h : 2 ≤ l.length) :
    ∃ (B : List Nat) (x y : Nat), l = B ++ [x, y] := by
  induction l with
  | nil => simp at h
  | cons a rest ih =>
    cases rest with
    | nil => simp at h
    | cons b rest2 =>
      cases rest2 with
      | nil => exact ⟨[], a, b, rfl⟩
      | cons c rest3 =>
        obtain ⟨B, x, y, hB⟩ := ih (by simp)
        exact ⟨a :: B, x, y, by rw [List.cons_append, ← hB]⟩

theorem insertIdx_append_left : ∀ (B l : List Nat) (x n : Nat),
    List.insertIdx (B.length + n) x (B ++ l) = B ++ List.insertIdx n x l := by
  intro B
  induction B with
  | nil => simp
  | cons a Bs ih =>
    intro l x n
    rw [List.cons_append, List.length_cons,
      show Bs.length + 1 + n = (Bs.length + n) + 1 by omega,
      List.insertIdx_succ_cons, ih]
    rfl

theorem swapAt_append (C : List Nat) : ∀ (l : List Nat) (i j : Nat),
    TensorLayout.swapAt (C ++ l) (C.length + i) (C.length + j) =
      C ++ TensorLayout.swapAt l i j := by
  induction C with
  | nil => intro l i j; simp [TensorLayout.swapAt]
  | cons c Cs ih =>
    intro l i j
    unfold TensorLayout.swapAt at ih ⊢
    rw [List.cons_append, List.length_cons,
      show Cs.length + 1 + i = (Cs.length + i) + 1 by omega,
      show Cs.length + 1 + j = (Cs.length + j) + 1 by omega]
    rw [List.getD_cons_succ, List.getD_cons_succ, List.set_cons_succ, List.set_cons_succ,
      ih l i j]
    rfl

theorem length_padLeft (xs : List Nat) (n v : Nat) :
    (TensorLayout.padLeft xs n v).length = max n xs.length := by
  simp only [TensorLayout.padLeft, List.length_append, List.length_replicate]
  omega

theorem padLeft_append (xs suf : List Nat) (n v : Nat) :
    TensorLayout.padLeft (xs ++ suf) (n + suf.length) v =
      TensorLayout.padLeft xs n v ++ suf := by
  unfold TensorLayout.padLeft
  rw [List.length_append,
    show n + suf.length - (xs.length + suf.length) = n - xs.length by omega,
    List.append_assoc]

theorem broadcastCompat_append (X Y : List Nat) (m n k : Nat) :
    TensorLayout.broadcastCompat (X ++ [m, 1, k]) (Y ++ [1, n, k]) =
      TensorLayout.broadcastCompat X Y := by
  simp only [TensorLayout.broadcastCompat]
  have hN : max (X ++ [m, 1, k]).length (Y ++ [1, n, k]).length = max X.length Y.length + 3 := by
    simp only [List.length_append, List.length_cons, List.length_nil]
    omega
  rw [hN]
  rw [show max X.length Y.length + 3 =
    max X.length Y.length + ([m, 1, k] : List Nat).length from rfl]
  rw [show (TensorLayout.padLeft (Y ++ [1, n, k])
      (max X.length Y.length + ([m, 1, k] : List Nat).length) 1) =
    (TensorLayout.padLeft (Y ++ [1, n, k])
      (max X.length Y.length + ([1, n, k] : List Nat).length) 1) from rfl]
  rw [padLeft_append, padLeft_append]
  have hlen : (TensorLayout.padLeft X (max X.length Y.length) 1).length =
      (TensorLayout.padLeft Y (max X.length Y.length) 1).length := by
    rw [length_padLeft, length_padLeft]
    omega
  rw [List.zip_append hlen, List.all_append]
  simp [TensorLayout.broadcastPairOk]

theorem broadcastShape_append (X Y : List Nat) (m n k : Nat) :
    TensorLayout.broadcastShape (X ++ [m, 1, k]) (Y ++ [1, n, k]) =
      TensorLayout.broadcastShape X Y ++ [max m 1, max 1 n, k] := by
  simp only [TensorLayout.broadcastShape]
  have hN : max (X ++ [m, 1, k]).length (Y ++ [1, n, k]).length = max X.length Y.length + 3 := by
    simp only [List.length_append, List.length_cons, List.length_nil]
    omega
  rw [hN]
  rw [show max X.length Y.length + 3 =
    max X.length Y.length + ([m, 1, k] : List Nat).length from rfl]
  rw [show (TensorLayout.padLeft (Y ++ [1, n, k])
      (max X.length Y.length + ([m, 1, k] : List Nat).length) 1) =
    (TensorLayout.padLeft (Y ++ [1, n, k])
      (max X.length Y.length + ([1, n, k] : List Nat).length) 1) from rfl]
  rw [padLeft_append, padLeft_append]
  have hlen : (TensorLayout.padLeft X (max X.length Y.length) 1).length =
      (TensorLayout.padLeft Y (max X.length Y.length) 1).length := by
    rw [length_padLeft, length_padLeft]
    omega
  rw [List.zipWith_append _ _ _ _ _ hlen]
  simp

theorem length_broadcastShape (s t : List Nat) :
    (TensorLayout.broadcastShape s t).length = max s.length t.length := by
  simp only [TensorLayout.broadcastShape]
  rw [List.length_zipWith, length_padLeft, length_padLeft]
  omega

theorem reduceShape_last (s : List Nat) (h : s ≠ []) :
    TensorLayout.reduceShape s [s.length - 1] = s.dropLast ++ [1] := by
  have hL : 0 < s.length := List.length_pos.mpr h
  apply List.ext_getElem
  · simp only [TensorLayout.reduceShape, List.length_map, List.length_range,
      List.length_append, List.length_dropLast, List.length_cons, List.length_nil]
    omega
  · intro k hk1 hk2
    have hk1' : k < s.length := by
      simpa [TensorLayout.reduceShape] using hk1
    simp only [TensorLayout.reduceShape]
    rw [List.getElem_map, List.getElem_range]
    by_cases hkl : k = s.length - 1
    · rw [if_pos (by simp [hkl])]
      rw [List.getElem_append_right (by simp [List.length_dropLast]; omega)]
      simp
    · rw [if_neg (by simp [hkl])]
      rw [List.getElem_append_left (by simp [List.length_dropLast]; omega)]
      rw [List.getElem_dropLast]
      rw [List.getD_eq_getElem _ _ (by omega)]

theorem prod_eraseIdx_one : ∀ (l : List Nat) (k : Nat), k < l.length → l.getD k 0 = 1 →
    (l.eraseIdx k).prod = l.prod := by
  intro l
  induction l with
  | nil =>
    intro k hk
    simp at hk
  | cons a rest ih =>
    intro k hk h1
    cases k with
    | zero =>
      simp only [List.getD_cons_zero] at h1
      simp [List.eraseIdx_cons_zero, h1]
    | succ m =>
      rw [List.eraseIdx_cons_succ]
      simp only [List.prod_cons]
      rw [ih m (by simpa using hk) (by simpa using h1)]

theorem Tensor.sized_reduce {t r : Tensor} {dims : List Nat} {dflt : ℤ} {op : ℤ → ℤ → ℤ}
    (hr : t.reduce dims dflt op = .ok r) : r.Sized := by
  by_cases hcond : dims.Nodup ∧ ∀ d ∈ dims, d < t.layout.shape.length
  · rw [Tensor.reduce_eq_of_cond t dims dflt op hcond] at hr
    cases hr
    show _ = _
    rw [foldl_length_invariant _ (fun res idx => List.length_set res _ _)]
    simp [TensorLayout.elems]
  · rw [Tensor.reduce_error hcond] at hr
    cases hr

/-- The left operand of matmul's broadcast multiplication: `a` reshaped to
`(..., m, 1, k)` (proof infrastructure naming the value `matmul` computes). -/
def mmLhs (a : Tensor) : Tensor :=
  ⟨a.data, TensorLayout.fromShape ((matmulPromoteL a.layout.shape).insertIdx
    ((matmulPromoteL a.layout.shape).length - 1) 1)⟩

/-- The shape `(..., 1, k, n)` of matmul's reshaped right operand. -/
def mmRhsShape2 (b : Tensor) : List Nat :=
  (matmulPromoteR b.layout.shape).insertIdx ((matmulPromoteR b.layout.shape).length - 2) 1

/-- The right operand of matmul's broadcast multiplication: `b` reshaped to
`(..., 1, k, n)` and transposed in its last two axes. -/
def mmRhsT (b : Tensor) : Tensor :=
  ⟨b.data,
    ⟨TensorLayout.swapAt (mmRhsShape2 b) ((mmRhsShape2 b).length - 1) ((mmRhsShape2 b).length - 2),
      TensorLayout.swapAt (rowMajorStrides (mmRhsShape2 b))
        ((mmRhsShape2 b).length - 1) ((mmRhsShape2 b).length - 2)⟩⟩

/-- The final result shape matmul reshapes to: drop the summed trailing unit
axis, then the promotion axes. -/
def mmShape5 (a b : Tensor) (sumprod : Tensor) : List Nat :=
  let shape3 := sumprod.layout.shape.dropLast
  let shape4 := if a.layout.shape.length = 1 then shape3.eraseIdx (shape3.length - 2) else shape3
  if b.layout.shape.length = 1 then shape4.eraseIdx (shape4.length - 1) else shape4

theorem eraseIdx_append_right : ∀ (X l : List Nat) (k : Nat),
    (X ++ l).eraseIdx (X.length + k) = X ++ l.eraseIdx k := by
  intro X
  induction X with
  | nil => simp
  | cons x Xs ih =>
    intro l k
    rw [List.cons_append, List.length_cons,
      show Xs.length + 1 + k = (Xs.length + k) + 1 by omega,
      List.eraseIdx_cons_succ, ih]
    rfl

theorem Tensor.matmul_error_rank0 {a b : Tensor}
    (h : a.layout.shape.length = 0 ∨ b.layout.shape.length = 0) :
    a.matmul b = .error (.IncompatibleShapes a.layout.shape b.layout.shape) := by
  simp only [Tensor.matmul]
  rw [if_pos h]

theorem Tensor.matmul_error_inner {a b : Tensor}
    (hA : a.layout.shape.length ≠ 0) (hB : b.layout.shape.length ≠ 0)
    (h : ¬ matmulInnerOk a.layout.shape b.layout.shape) :
    a.matmul b = .error (.IncompatibleShapes (matmulPromoteL a.layout.shape)
      (matmulPromoteR b.layout.shape)) := by
  unfold matmulInnerOk at h
  simp only [Tensor.matmul]
  rw [if_neg (by omega)]
  rw [if_pos h]

theorem mmRhsShape2_length {b : Tensor} (hB : b.layout.shape.length ≠ 0) :
    (mmRhsShape2 b).length = (matmulPromoteR b.layout.shape).length + 1 := by
  unfold mmRhsShape2
  rw [List.length_insertIdx _ _ (by omega)]

theorem Tensor.matmul_reduces {a b : Tensor} (ha : a.Sized) (hb : b.Sized)
    (hA : a.layout.shape.length ≠ 0) (hB : b.layout.shape.length ≠ 0)
    (hInner : matmulInnerOk a.layout.shape b.layout.shape) :
    a.matmul b =
      match (mmLhs a).mul (mmRhsT b) with
      | .error e => .error e
      | .ok prod =>
        match prod.sum [prod.layout.shape.length - 1] with
        | .error e => .error e
        | .ok sumprod => sumprod.reshape (mmShape5 a b sumprod) := by
  have hprodL : ((matmulPromoteL a.layout.shape).insertIdx
      ((matmulPromoteL a.layout.shape).length - 1) 1).prod = a.layout.elems := by
    rw [prod_insertIdx_one _ _ (by omega), prod_promoteL]
    rfl
  have hprodR : (mmRhsShape2 b).prod = b.layout.elems := by
    unfold mmRhsShape2
    rw [prod_insertIdx_one _ _ (by omega), prod_promoteR]
    rfl
  have h3 : 3 ≤ (mmRhsShape2 b).length := by
    rw [mmRhsShape2_length hB]
    have := length_promoteR_ge hB
    omega
  have htr : (⟨b.data, TensorLayout.fromShape (mmRhsShape2 b)⟩ : Tensor).transpose
      ((mmRhsShape2 b).length - 1) ((mmRhsShape2 b).length - 2) = .ok (mmRhsT b) := by
    unfold Tensor.transpose TensorLayout.transpose mmRhsT
    rw [if_pos ⟨by simp only [TensorLayout.fromShape_shape]; omega,
      by simp only [TensorLayout.fromShape_shape]; omega⟩]
    rfl
  have hInner2 : (matmulPromoteL a.layout.shape).getD ((matmulPromoteL a.layout.shape).length - 1) 0 =
      (matmulPromoteR b.layout.shape).getD ((matmulPromoteR b.layout.shape).length - 2) 0 := hInner
  have hprodR2 : ((matmulPromoteR b.layout.shape).insertIdx
      ((matmulPromoteR b.layout.shape).length - 2) 1).prod = b.layout.elems := hprodR
  have htr2 : (⟨b.data, TensorLayout.fromShape ((matmulPromoteR b.layout.shape).insertIdx
      ((matmulPromoteR b.layout.shape).length - 2) 1)⟩ : Tensor).transpose
      (((matmulPromoteR b.layout.shape).insertIdx
        ((matmulPromoteR b.layout.shape).length - 2) 1).length - 1)
      (((matmulPromoteR b.layout.shape).insertIdx
        ((matmulPromoteR b.layout.shape).length - 2) 1).length - 2) = .ok (mmRhsT b) := htr
  simp only [Tensor.matmul]
  rw [if_neg (by omega)]
  rw [if_neg (fun hc => hc hInner2)]
  simp only [Tensor.reshape_eq_of_sized a _ ha hprodL,
    Tensor.reshape_eq_of_sized b _ hb hprodR2, htr2]
  rfl

theorem getD_append (B : List Nat) : ∀ (l : List Nat) (k : Nat),
    (B ++ l).getD (B.length + k) 0 = l.getD k 0 := by
  induction B with
  | nil => intro l k; simp
  | cons b Bs ih =>
    intro l k
    rw [List.cons_append, List.length_cons,
      show Bs.length + 1 + k = (Bs.length + k) + 1 by omega,
      List.getD_cons_succ]
    exact ih l k

theorem getD_append_two_last (B : List Nat) (x y : Nat) :
    (B ++ [x, y]).getD ((B ++ [x, y]).length - 1) 0 = y := by
  rw [show (B ++ [x, y] : List Nat).length - 1 = B.length + 1 by
    simp only [List.length_append, List.length_cons, List.length_nil]; omega]
  rw [getD_append]
  rfl

theorem getD_append_two_first (B : List Nat) (x y : Nat) :
    (B ++ [x, y]).getD ((B ++ [x, y]).length - 2) 0 = x := by
  rw [show (B ++ [x, y] : List Nat).length - 2 = B.length + 0 by
    simp only [List.length_append, List.length_cons, List.length_nil]; omega]
  rw [getD_append]
  rfl

theorem insertIdx_append_two_last (B : List Nat) (x y : Nat) :
    List.insertIdx ((B ++ [x, y]).length - 1) 1 (B ++ [x, y]) = B ++ [x, 1, y] := by
  rw [show (B ++ [x, y] : List Nat).length - 1 = B.length + 1 by
    simp only [List.length_append, List.length_cons, List.length_nil]; omega]
  rw [insertIdx_append_left]
  rfl

theorem insertIdx_append_two_first (C : List Nat) (x y : Nat) :
    List.insertIdx ((C ++ [x, y]).length - 2) 1 (C ++ [x, y]) = C ++ [1, x, y] := by
  rw [show (C ++ [x, y] : List Nat).length - 2 = C.length + 0 by
    simp only [List.length_append, List.length_cons, List.length_nil]; omega]
  rw [insertIdx_append_left]
  rfl

theorem swapAt_append_three (C : List Nat) (x y z : Nat) :
    TensorLayout.swapAt (C ++ [x, y, z]) ((C ++ [x, y, z]).length - 1)
      ((C ++ [x, y, z]).length - 2) = C ++ [x, z, y] := by
  rw [show (C ++ [x, y, z] : List Nat).length - 1 = C.length + 2 by
      simp only [List.length_append, List.length_cons, List.length_nil]; omega,
    show (C ++ [x, y, z] : List Nat).length - 2 = C.length + 1 by
      simp only [List.length_append, List.length_cons, List.length_nil]; omega]
  rw [swapAt_append]
  rfl

theorem matmulBatch_append_two (B : List Nat) (x y : Nat) :
    matmulBatch (B ++ [x, y]) = B := by
  unfold matmulBatch
  rw [show (B ++ [x, y] : List Nat).length - 2 = B.length by
    simp only [List.length_append, List.length_cons, List.length_nil]; omega]
  exact List.take_left B [x, y]

theorem matmul_decomp {a b : Tensor}
    (hA : a.layout.shape.length ≠ 0) (hB : b.layout.shape.length ≠ 0)
    (hInner : matmulInnerOk a.layout.shape b.layout.shape) :
    ∃ (B C : List Nat) (m k n : Nat),
      matmulPromoteL a.layout.shape = B ++ [m, k] ∧
      matmulPromoteR b.layout.shape = C ++ [k, n] ∧
      (mmLhs a).layout.shape = B ++ [m, 1, k] ∧
      (mmRhsT b).layout.shape = C ++ [1, n, k] ∧
      matmulBatch (matmulPromoteL a.layout.shape) = B ∧
      matmulBatch (matmulPromoteR b.layout.shape) = C ∧
      (a.layout.shape.length = 1 → m = 1) ∧
      (b.layout.shape.length = 1 → n = 1) := by
  obtain ⟨B, m, k1, hBmk⟩ := exists_append_two (length_promoteL_ge hA)
  obtain ⟨C, k2, n, hCkn⟩ := exists_append_two (length_promoteR_ge hB)
  have hk : k1 = k2 := by
    have h := hInner
    unfold matmulInnerOk at h
    rw [hBmk, hCkn, getD_append_two_last, getD_append_two_first] at h
    exact h
  subst hk
  refine ⟨B, C, m, k1, n, hBmk, hCkn, ?_, ?_, ?_, ?_, ?_, ?_⟩
  · show (matmulPromoteL a.layout.shape).insertIdx
      ((matmulPromoteL a.layout.shape).length - 1) 1 = B ++ [m, 1, k1]
    rw [hBmk]
    exact insertIdx_append_two_last B m k1
  · show TensorLayout.swapAt (mmRhsShape2 b) ((mmRhsShape2 b).length - 1)
      ((mmRhsShape2 b).length - 2) = C ++ [1, n, k1]
    have h2 : mmRhsShape2 b = C ++ [1, k1, n] := by
      unfold mmRhsShape2
      rw [hCkn]
      exact insertIdx_append_two_first C k1 n
    rw [h2]
    exact swapAt_append_three C 1 k1 n
  · rw [hBmk]; exact matmulBatch_append_two B m k1
  · rw [hCkn]; exact matmulBatch_append_two C k1 n
  · intro h1
    have hpl : matmulPromoteL a.layout.shape = 1 :: a.layout.shape := by
      unfold matmulPromoteL
      rw [if_pos h1]
    obtain ⟨v, hv⟩ := List.length_eq_one.mp h1
    rw [hpl, hv] at hBmk
    have hBnil : B = [] := by
      have hlen := congrArg List.length hBmk
      simp only [List.length_cons, List.length_nil, List.length_append] at hlen
      exact List.length_eq_zero.mp (by omega)
    rw [hBnil] at hBmk
    simp only [List.nil_append, List.cons.injEq, List.cons_ne_nil] at hBmk
    exact hBmk.1.symm
  · intro h1
    have hpr : matmulPromoteR b.layout.shape = b.layout.shape ++ [1] := by
      unfold matmulPromoteR
      rw [if_pos h1]
    obtain ⟨v, hv⟩ := List.length_eq_one.mp h1
    rw [hpr, hv] at hCkn
    have hCnil : C = [] := by
      have hlen := congrArg List.length hCkn
      simp only [List.length_cons, List.length_nil, List.length_append] at hlen
      exact List.length_eq_zero.mp (by omega)
    rw [hCnil] at hCkn
    simp only [List.cons_append, List.nil_append, List.cons.injEq] at hCkn
    exact hCkn.2.1.symm

theorem Tensor.matmul_error_batch {a b : Tensor} (ha : a.Sized) (hb : b.Sized)
    (hA : a.layout.shape.length ≠ 0) (hB : b.layout.shape.length ≠ 0)
    (hInner : matmulInnerOk a.layout.shape b.layout.shape)
    (hBatch : ¬ matmulBatchOk a.layout.shape b.layout.shape) :
    a.matmul b = .error (.IncompatibleShapes (mmLhs a).layout.shape (mmRhsT b).layout.shape) := by
  rw [Tensor.matmul_reduces ha hb hA hB hInner]
  obtain ⟨B, C, m, k, n, hBmk, hCkn, hL3, hRT, hbL, hbR, -, -⟩ := matmul_decomp hA hB hInner
  have hcf : TensorLayout.broadcastCompat (mmLhs a).layout.shape (mmRhsT b).layout.shape
      = false := by
    rw [hL3, hRT, broadcastCompat_append]
    unfold matmulBatchOk at hBatch
    rw [hbL, hbR] at hBatch
    cases hcc : TensorLayout.broadcastCompat B C
    · rfl
    · exact absurd hcc hBatch
  have hmul : (mmLhs a).mul (mmRhsT b) =
      .error (.IncompatibleShapes (mmLhs a).layout.shape (mmRhsT b).layout.shape) :=
    Tensor.zip_of_incompat _ hcf
  rw [hmul]

theorem Tensor.sum_last_ok (d : List ℤ) (s : List Nat) (hs : s ≠ []) :
    ∃ r, (⟨d, TensorLayout.fromShape s⟩ : Tensor).sum [s.length - 1] = .ok r ∧
      r.Sized ∧ r.layout.shape = s.dropLast ++ [1] := by
  have hcond : ([s.length - 1] : List Nat).Nodup ∧
      ∀ dd ∈ ([s.length - 1] : List Nat),
        dd < (⟨d, TensorLayout.fromShape s⟩ : Tensor).layout.shape.length := by
    refine ⟨List.nodup_singleton _, ?_⟩
    intro dd hdd
    rw [List.mem_singleton] at hdd
    subst hdd
    show s.length - 1 < s.length
    have := List.length_pos.mpr hs
    omega
  have heq := Tensor.reduce_eq_of_cond (⟨d, TensorLayout.fromShape s⟩ : Tensor)
    [s.length - 1] 0 (fun x y => x + y) hcond
  refine ⟨_, heq, Tensor.sized_reduce heq, ?_⟩
  show TensorLayout.reduceShape s [s.length - 1] = s.dropLast ++ [1]
  exact reduceShape_last s hs

theorem Tensor.matmul_ok {a b : Tensor} (ha : a.Sized) (hb : b.Sized)
    (hA : a.layout.shape.length ≠ 0) (hB : b.layout.shape.length ≠ 0)
    (hInner : matmulInnerOk a.layout.shape b.layout.shape)
    (hBatch : matmulBatchOk a.layout.shape b.layout.shape) :
    ∃ r, a.matmul b = .ok r := by
  rw [Tensor.matmul_reduces ha hb hA hB hInner]
  obtain ⟨B, C, m, k, n, hBmk, hCkn, hL3, hRT, hbL, hbR, hm1, hn1⟩ := matmul_decomp hA hB hInner
  have hct : TensorLayout.broadcastCompat (mmLhs a).layout.shape (mmRhsT b).layout.shape
      = true := by
    rw [hL3, hRT, broadcastCompat_append]
    unfold matmulBatchOk at hBatch
    rw [hbL, hbR] at hBatch
    exact hBatch
  obtain ⟨d, hmul0, hdlen⟩ := Tensor.zip_ok_of_compat (fun x y => x * y) hct
  have hmul : (mmLhs a).mul (mmRhsT b) = .ok ⟨d,
      TensorLayout.fromShape (TensorLayout.broadcastShape (mmLhs a).layout.shape
        (mmRhsT b).layout.shape)⟩ := hmul0
  have hbsh : TensorLayout.broadcastShape (mmLhs a).layout.shape (mmRhsT b).layout.shape =
      TensorLayout.broadcastShape B C ++ [max m 1, max 1 n, k] := by
    rw [hL3, hRT, broadcastShape_append]
  rw [hbsh] at hmul
  set bb := TensorLayout.broadcastShape B C with hbb
  obtain ⟨S, hsum, hSsized, hSshape⟩ :=
    Tensor.sum_last_ok d (bb ++ [max m 1, max 1 n, k]) (by simp)
  have hdrop : ((bb ++ [max m 1, max 1 n, k] : List Nat)).dropLast = bb ++ [max m 1, max 1 n] := by
    rw [show bb ++ [max m 1, max 1 n, k] = (bb ++ [max m 1, max 1 n]) ++ [k] by
      rw [List.append_assoc]; rfl]
    exact List.dropLast_concat
  rw [hdrop] at hSshape
  have hprod5 : (mmShape5 a b S).prod = S.layout.elems := by
    have helems : S.layout.elems = bb.prod * (max m 1 * max 1 n) := by
      show S.layout.shape.prod = bb.prod * (max m 1 * max 1 n)
      rw [hSshape]
      simp only [List.prod_append, List.prod_cons, List.prod_nil]
      ring
    rw [helems]
    simp only [mmShape5, hSshape, List.dropLast_concat]
    by_cases ha1 : a.layout.shape.length = 1
    · rw [if_pos ha1]
      have hsh4 : ((bb ++ [max m 1, max 1 n] : List Nat)).eraseIdx
          ((bb ++ [max m 1, max 1 n] : List Nat).length - 2) = bb ++ [max 1 n] := by
        rw [show (bb ++ [max m 1, max 1 n] : List Nat).length - 2 = bb.length + 0 by
          simp only [List.length_append, List.length_cons, List.length_nil]; omega]
        rw [eraseIdx_append_right]
        rfl
      rw [hsh4]
      by_cases hb1 : b.layout.shape.length = 1
      · rw [if_pos hb1]
        have hsh5 : ((bb ++ [max 1 n] : List Nat)).eraseIdx
            ((bb ++ [max 1 n] : List Nat).length - 1) = bb := by
          rw [show (bb ++ [max 1 n] : List Nat).length - 1 = bb.length + 0 by
            simp only [List.length_append, List.length_cons, List.length_nil]; omega]
          rw [eraseIdx_append_right]
          simp
        rw [hsh5, hm1 ha1, hn1 hb1]
        simp
      · rw [if_neg hb1, hm1 ha1]
        simp [List.prod_append]
    · rw [if_neg ha1]
      by_cases hb1 : b.layout.shape.length = 1
      · rw [if_pos hb1]
        have hsh5 : ((bb ++ [max m 1, max 1 n] : List Nat)).eraseIdx
            ((bb ++ [max m 1, max 1 n] : List Nat).length - 1) = bb ++ [max m 1] := by
          rw [show (bb ++ [max m 1, max 1 n] : List Nat).length - 1 = bb.length + 1 by
            simp only [List.length_append, List.length_cons, List.length_nil]; omega]
          rw [eraseIdx_append_right]
          rfl
        rw [hsh5, hn1 hb1]
        simp [List.prod_append]
      · rw [if_neg hb1]
        simp only [List.prod_append, List.prod_cons, List.prod_nil]
        ring
  have hresh := Tensor.reshape_eq_of_sized S (mmShape5 a b S) hSsized hprod5
  refine ⟨⟨S.data, TensorLayout.fromShape (mmShape5 a b S)⟩, ?_⟩
  rw [hmul]
  show (match (⟨d, TensorLayout.fromShape (bb ++ [max m 1, max 1 n, k])⟩ : Tensor).sum
      [(⟨d, TensorLayout.fromShape (bb ++ [max m 1, max 1 n, k])⟩ :
        Tensor).layout.shape.length - 1] with
    | Except.error e => Except.error e
    | Except.ok sumprod => sumprod.reshape (mmShape5 a b sumprod)) =
    Except.ok ⟨S.data, TensorLayout.fromShape (mmShape5 a b S)⟩
  rw [show (⟨d, TensorLayout.fromShape (bb ++ [max m 1, max 1 n, k])⟩ : Tensor).sum
      [(⟨d, TensorLayout.fromShape (bb ++ [max m 1, max 1 n, k])⟩ :
        Tensor).layout.shape.length - 1] = Except.ok S from hsum]
  exact hresh

/-- C7: `matmul` fails — necessarily with a shape-incompatibility error, the
only error kind — if and only if either operand has rank 0, or (after
promoting a rank-1 left operand to `(1, k)` and a rank-1 right operand to
`(k, 1)`) the left operand's last dimension differs from the right operand's
second-to-last dimension, or the promoted operands' batch dimensions are not
broadcast-compatible; the error carries the offending shapes: the original
operand shapes in the rank-0 case, the promoted shapes in the
inner-dimension case, and the broadcast-multiplied operand shapes (lhs
reshaped to `(..., m, 1, k)`, rhs reshaped and transposed to
`(..., 1, n, k)`) in the batch case. -/
theorem matmul_error_iff (a b : Tensor) (ha : a.Sized) (hb : b.Sized) :
    ((∃ e, a.matmul b = .error e) ↔
      ((a.layout.shape.length = 0 ∨ b.layout.shape.length = 0) ∨
        ¬ matmulInnerOk a.layout.shape b.layout.shape ∨
        ¬ matmulBatchOk a.layout.shape b.layout.shape)) ∧
    ((a.layout.shape.length = 0 ∨ b.layout.shape.length = 0) →
      a.matmul b = .error (.IncompatibleShapes a.layout.shape b.layout.shape)) ∧
    (a.layout.shape.length ≠ 0 → b.layout.shape.length ≠ 0 →
      ¬ matmulInnerOk a.layout.shape b.layout.shape →
      a.matmul b = .error (.IncompatibleShapes (matmulPromoteL a.layout.shape)
        (matmulPromoteR b.layout.shape))) ∧
    (a.layout.shape.length ≠ 0 → b.layout.shape.length ≠ 0 →
      matmulInnerOk a.layout.shape b.layout.shape →
      ¬ matmulBatchOk a.layout.shape b.layout.shape →
      a.matmul b = .error (.IncompatibleShapes (mmLhs a).layout.shape
        (mmRhsT b).layout.shape)) := by
  refine ⟨⟨?_, ?_⟩, fun h0 => Tensor.matmul_error_rank0 h0,
    fun hA hB hI => Tensor.matmul_error_inner hA hB hI,
    fun hA hB hI hBt => Tensor.matmul_error_batch ha hb hA hB hI hBt⟩
  · rintro ⟨e, he⟩
    by_contra hc
    push_neg at hc
    obtain ⟨⟨hA, hB⟩, hI, hBt⟩ := hc
    obtain ⟨r, hr⟩ := Tensor.matmul_ok ha hb hA hB hI hBt
    rw [hr] at he
    cases he
  · intro h
    by_cases h0 : a.layout.shape.length = 0 ∨ b.layout.shape.length = 0
    · exact ⟨_, Tensor.matmul_error_rank0 h0⟩
    · push_neg at h0
      obtain ⟨hA, hB⟩ := h0
      by_cases hI : matmulInnerOk a.layout.shape b.layout.shape
      · rcases h with h0' | hI' | hBt
        · exact absurd h0' (not_or.mpr ⟨hA, hB⟩)
        · exact absurd hI hI'
        · exact ⟨_, Tensor.matmul_error_batch ha hb hA hB hI hBt⟩
      · exact ⟨_, Tensor.matmul_error_inner hA hB hI⟩

/-- Witness for `matmul_error_iff`: the 2x3 and 3x2 scenario matrices are
sized, so the characterization applies to them (and its failure disjunction
is decidably false for this compatible pair). -/
theorem matmul_error_iff_witness :
    matA.Sized ∧ matB.Sized ∧
    (((∃ e, matA.matmul matB = .error e) ↔
      ((matA.layout.shape.length = 0 ∨ matB.layout.shape.length = 0) ∨
        ¬ matmulInnerOk matA.layout.shape matB.layout.shape ∨
        ¬ matmulBatchOk matA.layout.shape matB.layout.shape)) ∧
    ((matA.layout.shape.length = 0 ∨ matB.layout.shape.length = 0) →
      matA.matmul matB = .error (.IncompatibleShapes matA.layout.shape matB.layout.shape)) ∧
    (matA.layout.shape.length ≠ 0 → matB.layout.shape.length ≠ 0 →
      ¬ matmulInnerOk matA.layout.shape matB.layout.shape →
      matA.matmul matB = .error (.IncompatibleShapes (matmulPromoteL matA.layout.shape)
        (matmulPromoteR matB.layout.shape))) ∧
    (matA.layout.shape.length ≠ 0 → matB.layout.shape.length ≠ 0 →
      matmulInnerOk matA.layout.shape matB.layout.shape →
      ¬ matmulBatchOk matA.layout.shape matB.layout.shape →
      matA.matmul matB = .error (.IncompatibleShapes (mmLhs matA).layout.shape
        (mmRhsT matB).layout.shape))) :=
  ⟨rfl, rfl, matmul_error_iff matA matB rfl rfl⟩
